import Mathlib

/-!
Verification development for the TS Contract Alignment System's alignment
engine (`src/ts_contract_alignment/alignment/`): the rule-based matcher
(`rule_matcher.py`), the semantic matcher (`semantic_matcher.py`) and the
orchestrating alignment engine (`alignment_engine.py`), together with the
data model they operate on (`models/enums.py`, `models/extraction.py`,
`models/template.py`, `models/alignment.py`).

Modelling conventions:
* Python `float` scores and thresholds are modelled as `ℚ` (exact
  arithmetic); the only irrational operation in the source, the `** 0.5`
  square root inside `_cosine_similarity`, is modelled by an explicit
  square-root routine `sqrtFn : ℚ → ℚ` carried by the semantic matcher.
* Python `str` is `String`; `str.lower` is modelled by `String.toLower`
  and the regex character classes `\w` / `\s` by their ASCII cores
  (`Char.isAlphanum` / the ASCII whitespace set).  All scores produced by
  the matchers are independent of this approximation.
* Python dicts used as configuration maps are association lists with
  first-match lookup (the source builds them from dicts, so keys are
  unique).
* The injected collaborators (the sentence-transformers model and the
  pgvector database connection) are modelled as function parameters:
  `encode : String → Option (List ℚ)` (`none` models an `encode`
  exception) and a database oracle returning `Option` rows (`none`
  models a raised exception, triggering the in-memory fallback).
* `datetime.now` is modelled as an explicit `now : String` argument.
-/

namespace TSAlign

/-! ## String helpers (Python `in`, `startswith`, `strip`, `lower`) -/

/-- Does the needle match at the head of the haystack? -/
def headMatch : List Char → List Char → Bool
  | [], _ => true
  | _ :: _, [] => false
  | n :: ns, h :: hs => n = h && headMatch ns hs

/-- Substring occurrence over character lists. -/
def hasSubAux (needle : List Char) : List Char → Bool
  | [] => needle.isEmpty
  | h :: hs => headMatch needle (h :: hs) || hasSubAux needle hs

/-- Python's `needle in hay` for strings. -/
def containsSub (hay needle : String) : Bool :=
  hasSubAux needle.data hay.data

/-- Python's `s.startswith(p)`. -/
def pyStartsWith (s p : String) : Bool :=
  headMatch p.data s.data

/-- Python's `str.lower`, modelled on the ASCII range. -/
def pyLower (s : String) : String := s.toLower

/-- Characters treated as whitespace by Python's `str.strip` (ASCII core). -/
def isPySpace (c : Char) : Bool :=
  c = ' ' || c = '\t' || c = '\n' || c = '\r' || c = '\x0b' || c = '\x0c'

/-- Python's `str.strip()`. -/
def pyStrip (s : String) : String :=
  ⟨((s.data.dropWhile isPySpace).reverse.dropWhile isPySpace).reverse⟩

/-- Word characters of the regex class `\w` (ASCII core: letters, digits, underscore). -/
def wordChar (c : Char) : Bool := c.isAlphanum || c = '_'

/-- Splits a string into the maximal runs matched by `\w+` (models `re.findall(r'\w+', s)`). -/
def findWordsAux : List Char → List Char → List String
  | acc, [] => if acc.isEmpty then [] else [⟨acc.reverse⟩]
  | acc, c :: cs =>
    if wordChar c then findWordsAux (c :: acc) cs
    else if acc.isEmpty then findWordsAux [] cs
    else ⟨acc.reverse⟩ :: findWordsAux [] cs

/-- All `\w+` tokens of a string, in order. -/
def findWords (s : String) : List String := findWordsAux [] s.data

/-- Stop words removed before the Jaccard title comparison
(`RuleBasedMatcher._match_by_title`). -/
def stopWords : Finset String :=
  (["the", "a", "an", "of", "and", "or", "to", "in", "for", "on", "with"] : List String).toFinset

/-- Zero-pads a number to width four, modelling the Python format `f"{n:04d}"`
for the per-run match ids. -/
def pad4 (n : Nat) : String :=
  let s := toString n
  if s.length < 4 then ⟨List.replicate (4 - s.length) '0'⟩ ++ s else s

/-! ## Enumerations (`models/enums.py`, `models/template.py`) -/

/-- Categories of terms extracted from Term Sheets (`TermCategory`). -/
inductive TermCategory
  | INVESTMENT_AMOUNT | VALUATION | PRICING | CLOSING_CONDITIONS
  | CONDITIONS_PRECEDENT | BOARD_SEATS | VOTING_RIGHTS
  | LIQUIDATION_PREFERENCE | ANTI_DILUTION | INFORMATION_RIGHTS | OTHER
  deriving DecidableEq, Repr

/-- The `.value` string of a `TermCategory` member. -/
def TermCategory.value : TermCategory → String
  | .INVESTMENT_AMOUNT => "investment_amount"
  | .VALUATION => "valuation"
  | .PRICING => "pricing"
  | .CLOSING_CONDITIONS => "closing_conditions"
  | .CONDITIONS_PRECEDENT => "conditions_precedent"
  | .BOARD_SEATS => "board_seats"
  | .VOTING_RIGHTS => "voting_rights"
  | .LIQUIDATION_PREFERENCE => "liquidation_preference"
  | .ANTI_DILUTION => "anti_dilution"
  | .INFORMATION_RIGHTS => "information_rights"
  | .OTHER => "other"

/-- Categories of clauses in contract templates (`ClauseCategory`). -/
inductive ClauseCategory
  | DEFINITIONS | INVESTMENT_TERMS | GOVERNANCE | LIQUIDATION
  | ANTI_DILUTION | INFORMATION_RIGHTS | REPRESENTATIONS | COVENANTS
  | CLOSING | MISCELLANEOUS
  deriving DecidableEq, Repr

/-- The `.value` string of a `ClauseCategory` member. -/
def ClauseCategory.value : ClauseCategory → String
  | .DEFINITIONS => "definitions"
  | .INVESTMENT_TERMS => "investment_terms"
  | .GOVERNANCE => "governance"
  | .LIQUIDATION => "liquidation"
  | .ANTI_DILUTION => "anti_dilution"
  | .INFORMATION_RIGHTS => "information_rights"
  | .REPRESENTATIONS => "representations"
  | .COVENANTS => "covenants"
  | .CLOSING => "closing"
  | .MISCELLANEOUS => "miscellaneous"

/-- Types of actions for alignment operations (`ActionType`). -/
inductive ActionType
  | INSERT | OVERRIDE | SKIP
  deriving DecidableEq, Repr

/-- Methods used for matching TS terms to contract clauses (`MatchMethod`). -/
inductive MatchMethod
  | RULE_TITLE | RULE_NUMBER | RULE_KEYWORD | SEMANTIC | TEMPLATE_MEMORY
  deriving DecidableEq, Repr

/-- Types of fillable segments in contract templates (`FillableType`). -/
inductive FillableType
  | TEXT | NUMBER | DATE | PERCENTAGE | CURRENCY | LIST
  deriving DecidableEq, Repr

/-! ## Data model (`models/extraction.py`, `models/template.py`, `models/alignment.py`)

The fields the alignment engine never reads (`ExtractedTerm.value`,
`ExtractedTerm.source_paragraph_id`, `ExtractedTerm.confidence`,
`ExtractedTerm.metadata`, `FillableSegment.location_start`,
`FillableSegment.location_end`, `TSExtractionResult.unrecognized_sections`,
`TemplateAnalysisResult.structure_map` and the two timestamps of the
input records) are omitted. -/

/-- Term extracted from a Term Sheet document (`ExtractedTerm`). -/
structure ExtractedTerm where
  id : String
  category : TermCategory
  title : String
  raw_text : String
  source_section_id : String
  deriving DecidableEq, Repr

/-- Fillable segment in a contract template (`FillableSegment`).
`current_value = none` models Python `None`. -/
structure FillableSegment where
  id : String
  expected_type : FillableType
  context_before : String
  context_after : String
  current_value : Option String := none
  deriving DecidableEq, Repr

/-- Analyzed contract clause (`AnalyzedClause`). -/
structure AnalyzedClause where
  id : String
  section_id : String
  title : String
  category : ClauseCategory
  full_text : String
  fillable_segments : List FillableSegment := []
  keywords : List String := []
  semantic_embedding : Option (List ℚ) := none
  deriving DecidableEq, Repr

/-- Result of TS information extraction (`TSExtractionResult`). -/
structure TSExtractionResult where
  document_id : String
  terms : List ExtractedTerm := []
  deriving DecidableEq, Repr

/-- Result of contract template analysis (`TemplateAnalysisResult`). -/
structure TemplateAnalysisResult where
  document_id : String
  clauses : List AnalyzedClause := []
  deriving DecidableEq, Repr

/-- Alignment match between a TS term and a contract clause (`AlignmentMatch`). -/
structure AlignmentMatch where
  id : String
  ts_term_id : String
  clause_id : String
  fillable_segment_id : Option String
  match_method : MatchMethod
  confidence : ℚ
  action : ActionType
  needs_review : Bool
  deriving DecidableEq, Repr

/-- Result of TS-to-template alignment (`AlignmentResult`). -/
structure AlignmentResult where
  ts_document_id : String
  template_document_id : String
  «matches» : List AlignmentMatch := []
  unmatched_terms : List String := []
  unmatched_clauses : List String := []
  alignment_timestamp : String := ""
  deriving DecidableEq, Repr

/-! ## Stable descending sort

Python's `list.sort(key=..., reverse=True)` is a stable sort placing larger
keys first and preserving the input order of equal keys.  The insertion
sort below has exactly that behaviour. -/

variable {α : Type _}

/-- Inserts an element into a descending-sorted list, after all elements
with a key not smaller than its own (stability). -/
def insertDescBy (key : α → ℚ) (x : α) : List α → List α
  | [] => [x]
  | y :: ys => if key y ≤ key x then x :: y :: ys else y :: insertDescBy key x ys

/-- Stable sort by a rational key, descending; models Python's
`list.sort(key=..., reverse=True)`. -/
def sortDescBy (key : α → ℚ) : List α → List α
  | [] => []
  | x :: xs => insertDescBy key x (sortDescBy key xs)

/-! ## Rule-based matcher (`alignment/rule_matcher.py`) -/

/-- Rule definition for matching TS terms to contract clauses (`MatchRule`). -/
structure MatchRule where
  name : String
  term_categories : List TermCategory
  clause_categories : List ClauseCategory
  keywords_en : List String
  keywords_zh : List String
  priority : Nat
  base_confidence : ℚ
  deriving DecidableEq, Repr

namespace RuleBasedMatcher

/-- The fixed rule table built by `RuleBasedMatcher._build_rules`. -/
def rules : List MatchRule := [
  { name := "investment_amount_to_terms",
    term_categories := [.INVESTMENT_AMOUNT],
    clause_categories := [.INVESTMENT_TERMS],
    keywords_en := ["investment", "amount", "subscription", "purchase",
                    "capital", "funding", "consideration"],
    keywords_zh := ["投资", "金额", "认购", "出资", "对价"],
    priority := 10, base_confidence := 0.85 },
  { name := "valuation_to_terms",
    term_categories := [.VALUATION],
    clause_categories := [.INVESTMENT_TERMS],
    keywords_en := ["valuation", "pre-money", "post-money", "enterprise value"],
    keywords_zh := ["估值", "投前", "投后", "企业价值"],
    priority := 10, base_confidence := 0.85 },
  { name := "pricing_to_terms",
    term_categories := [.PRICING],
    clause_categories := [.INVESTMENT_TERMS],
    keywords_en := ["price", "share price", "conversion price", "issue price"],
    keywords_zh := ["价格", "股价", "转换价格", "发行价格"],
    priority := 10, base_confidence := 0.85 },
  { name := "board_seats_to_governance",
    term_categories := [.BOARD_SEATS],
    clause_categories := [.GOVERNANCE],
    keywords_en := ["board", "director", "seat", "composition", "appointment"],
    keywords_zh := ["董事", "席位", "任命", "组成"],
    priority := 9, base_confidence := 0.85 },
  { name := "voting_rights_to_governance",
    term_categories := [.VOTING_RIGHTS],
    clause_categories := [.GOVERNANCE],
    keywords_en := ["voting", "vote", "rights", "shareholder", "protective"],
    keywords_zh := ["投票", "表决", "权利", "股东", "保护"],
    priority := 9, base_confidence := 0.85 },
  { name := "liquidation_pref_to_liquidation",
    term_categories := [.LIQUIDATION_PREFERENCE],
    clause_categories := [.LIQUIDATION],
    keywords_en := ["liquidation", "preference", "distribution", "proceeds"],
    keywords_zh := ["清算", "优先", "分配", "收益"],
    priority := 9, base_confidence := 0.90 },
  { name := "anti_dilution_to_anti_dilution",
    term_categories := [.ANTI_DILUTION],
    clause_categories := [.ANTI_DILUTION],
    keywords_en := ["anti-dilution", "dilution", "adjustment", "ratchet", "weighted"],
    keywords_zh := ["反稀释", "稀释", "调整", "棘轮", "加权"],
    priority := 9, base_confidence := 0.90 },
  { name := "info_rights_to_info_rights",
    term_categories := [.INFORMATION_RIGHTS],
    clause_categories := [.INFORMATION_RIGHTS],
    keywords_en := ["information", "reporting", "financial", "audit", "inspection"],
    keywords_zh := ["信息", "报告", "财务", "审计", "检查"],
    priority := 8, base_confidence := 0.85 },
  { name := "closing_conditions_to_closing",
    term_categories := [.CLOSING_CONDITIONS],
    clause_categories := [.CLOSING],
    keywords_en := ["closing", "completion", "conditions", "deliverables"],
    keywords_zh := ["交割", "完成", "条件", "交付"],
    priority := 8, base_confidence := 0.85 },
  { name := "conditions_precedent_to_closing",
    term_categories := [.CONDITIONS_PRECEDENT],
    clause_categories := [.CLOSING],
    keywords_en := ["conditions precedent", "preconditions", "prior conditions"],
    keywords_zh := ["先决条件", "前提条件"],
    priority := 8, base_confidence := 0.85 }]

/-- The direct term-category-to-clause-categories map built by
`RuleBasedMatcher._build_category_mapping` (the dict covers every
`TermCategory`, so the `.get` default `[]` is unreachable). -/
def categoryMapping : TermCategory → List ClauseCategory
  | .INVESTMENT_AMOUNT => [.INVESTMENT_TERMS]
  | .VALUATION => [.INVESTMENT_TERMS]
  | .PRICING => [.INVESTMENT_TERMS]
  | .CLOSING_CONDITIONS => [.CLOSING]
  | .CONDITIONS_PRECEDENT => [.CLOSING]
  | .BOARD_SEATS => [.GOVERNANCE]
  | .VOTING_RIGHTS => [.GOVERNANCE]
  | .LIQUIDATION_PREFERENCE => [.LIQUIDATION]
  | .ANTI_DILUTION => [.ANTI_DILUTION]
  | .INFORMATION_RIGHTS => [.INFORMATION_RIGHTS]
  | .OTHER => [.MISCELLANEOUS]

/-- Expected clause categories for a term category
(`RuleBasedMatcher.get_expected_clause_categories`). -/
def get_expected_clause_categories (term_category : TermCategory) : List ClauseCategory :=
  categoryMapping term_category

/-- Title comparison of `RuleBasedMatcher._match_by_title`. -/
def matchByTitle (term : ExtractedTerm) (clause : AnalyzedClause) : ℚ :=
  if term.title = "" ∨ clause.title = "" then 0
  else
    let term_title_lower := pyLower term.title
    let clause_title_lower := pyLower clause.title
    if term_title_lower = clause_title_lower then 0.95
    else if containsSub clause_title_lower term_title_lower then 0.85
    else if containsSub term_title_lower clause_title_lower then 0.80
    else
      let term_words := (findWords term_title_lower).toFinset \ stopWords
      let clause_words := (findWords clause_title_lower).toFinset \ stopWords
      if term_words = ∅ ∨ clause_words = ∅ then 0
      else
        let overlap : ℚ := (term_words ∩ clause_words).card
        let uni : ℚ := (term_words ∪ clause_words).card
        if 0 < uni then
          let jaccard := overlap / uni
          if jaccard > 0.5 then 0.6 + jaccard * 0.3 else 0
        else 0

/-- Consumes the `(?:\.\d+)*` groups of the dotted-number regex greedily,
returning the groups (each with its leading dot) and the rest. -/
def takeGroups : Nat → List Char → List (List Char) × List Char
  | 0, rest => ([], rest)
  | fuel + 1, rest =>
    match rest with
    | '.' :: c :: cs =>
      if c.isDigit then
        let (d, r) := (c :: cs).span Char.isDigit
        let (gs, r2) := takeGroups fuel r
        (('.' :: d) :: gs, r2)
      else ([], '.' :: c :: cs)
    | r => ([], r)

/-- Scanner for `re.findall(r'\b(\d+(?:\.\d+)*)\b', text)`: left-to-right,
non-overlapping, with word-boundary checks and the one backtracking step
the pattern admits (dropping the final `.digits` group when the character
after it is a word character). -/
def scanDotted : Nat → Bool → List Char → List String
  | 0, _, _ => []
  | _, _, [] => []
  | fuel + 1, prevWord, c :: cs =>
    if c.isDigit ∧ prevWord = false then
      let (d, r1) := (c :: cs).span Char.isDigit
      let (gs, r2) := takeGroups r1.length r1
      match r2 with
      | [] => [⟨d ++ gs.flatten⟩]
      | b :: _ =>
        if wordChar b then
          match gs.getLast? with
          | some lastG =>
            (⟨d ++ gs.dropLast.flatten⟩ : String) :: scanDotted fuel true (lastG ++ r2)
          | none => scanDotted fuel true r1
        else
          (⟨d ++ gs.flatten⟩ : String) :: scanDotted fuel true r2
    else
      scanDotted fuel (wordChar c) cs

/-- Scanner for `re.findall(r'(?:Article|Section|Clause)\s*(\d+)', text,
re.IGNORECASE)`. -/
def scanArticleAux : Nat → List Char → List String
  | 0, _ => []
  | _, [] => []
  | fuel + 1, c :: cs =>
    let l := c :: cs
    let ll := l.map Char.toLower
    let kwLen : Option Nat :=
      if headMatch "article".data ll then some 7
      else if headMatch "section".data ll then some 7
      else if headMatch "clause".data ll then some 6
      else none
    match kwLen with
    | some n =>
      let rest := (l.drop n).dropWhile isPySpace
      let (d, r) := rest.span Char.isDigit
      if d.isEmpty then scanArticleAux fuel cs
      else (⟨d⟩ : String) :: scanArticleAux fuel r
    | none => scanArticleAux fuel cs

/-- Chinese numerals admitted by the `第…条` pattern. -/
def cjkNumeral (c : Char) : Bool :=
  c = '一' || c = '二' || c = '三' || c = '四' || c = '五' || c = '六' ||
  c = '七' || c = '八' || c = '九' || c = '十' || c = '百'

/-- Scanner for `re.findall(r'第([一二三四五六七八九十百]+)条', text)`. -/
def scanCjkAux : Nat → List Char → List String
  | 0, _ => []
  | _, [] => []
  | fuel + 1, c :: cs =>
    if c = '第' then
      let (n, r) := cs.span cjkNumeral
      match n, r with
      | _ :: _, '条' :: r2 => (⟨n⟩ : String) :: scanCjkAux fuel r2
      | _, _ => scanCjkAux fuel cs
    else scanCjkAux fuel cs

/-- Section numbers extracted from free text by
`RuleBasedMatcher._extract_section_numbers` (the three patterns are run in
order and their captures concatenated). -/
def extractSectionNumbers (text : String) : List String :=
  scanDotted (text.data.length + 1) false text.data
    ++ scanArticleAux (text.data.length + 1) text.data
    ++ scanCjkAux (text.data.length + 1) text.data

/-- Inner loop of the nested comparison in `_match_by_number`: the first
clause number equal to `t` yields 0.75, the first with a string-prefix
relation yields 0.65. -/
def pairScanInner (t : String) : List String → Option ℚ
  | [] => none
  | c :: cs =>
    if t = c then some 0.75
    else if pyStartsWith t c || pyStartsWith c t then some 0.65
    else pairScanInner t cs

/-- Outer loop of the nested comparison in `_match_by_number`. -/
def pairScan : List String → List String → Option ℚ
  | [], _ => none
  | t :: ts, cls =>
    match pairScanInner t cls with
    | some q => some q
    | none => pairScan ts cls

/-- Section-number comparison of `RuleBasedMatcher._match_by_number`. -/
def matchByNumber (term : ExtractedTerm) (clause : AnalyzedClause) : ℚ :=
  let term_numbers := extractSectionNumbers term.raw_text
  let clause_numbers := extractSectionNumbers clause.section_id
  if term_numbers.isEmpty || clause_numbers.isEmpty then 0
  else
    match pairScan term_numbers clause_numbers with
    | some q => q
    | none => 0

/-- Number of the rule's keywords found in the clause text by the loop of
`_match_by_keyword`: the English keywords are compared lower-cased against
the lower-cased clause text, the Chinese keywords case-sensitively against
the original text. -/
def ruleKeywordMatches (clause : AnalyzedClause) (r : MatchRule) : ℕ :=
  r.keywords_en.countP (fun k => containsSub (pyLower clause.full_text) (pyLower k))
    + r.keywords_zh.countP (fun k => containsSub clause.full_text k)

/-- One iteration of the rule loop in `_match_by_keyword`: the rule's
contribution, or `none` when the clause category is outside the rule's
clause categories or no keyword matched (`keyword_matches == 0`). -/
def ruleKeywordConfidence (clause : AnalyzedClause) (r : MatchRule) : Option ℚ :=
  if clause.category ∉ r.clause_categories then none
  else
    let keyword_matches : ℕ := ruleKeywordMatches clause r
    let total_keywords : ℕ := r.keywords_en.length + r.keywords_zh.length
    if 0 < total_keywords ∧ 0 < keyword_matches then
      some (r.base_confidence *
        (0.5 + 0.5 * ((keyword_matches : ℚ) / (total_keywords : ℚ))))
    else none

/-- One step of the `best_confidence` accumulation in `_match_by_keyword`:
max the accumulator with the rule's contribution, if any. -/
def keywordFoldStep (clause : AnalyzedClause) (best : ℚ) (r : MatchRule) : ℚ :=
  match ruleKeywordConfidence clause r with
  | some confidence => max best confidence
  | none => best

/-- Keyword-overlap scoring of `RuleBasedMatcher._match_by_keyword`:
`best_confidence` starts at 0 and is maxed with each applicable rule's
contribution. -/
def matchByKeyword (term : ExtractedTerm) (clause : AnalyzedClause) : ℚ :=
  let applicable_rules := rules.filter (fun r => term.category ∈ r.term_categories)
  if applicable_rules.isEmpty then 0
  else applicable_rules.foldl (keywordFoldStep clause) 0

/-- Category-mapping fallback of `RuleBasedMatcher._match_by_category`. -/
def matchByCategory (term : ExtractedTerm) (clause : AnalyzedClause) : ℚ :=
  let expected_categories := categoryMapping term.category
  if clause.category ∈ expected_categories then
    let base_confidence : ℚ := 0.6
    let term_text_lower := pyLower term.raw_text
    let keyword_boost : ℚ := 0.05 *
      ((clause.keywords.map pyLower).countP (fun k => containsSub term_text_lower k))
    min 0.8 (base_confidence + keyword_boost)
  else 0

/-- The four rule strategies, in cascade order. -/
inductive Strategy
  | title | number | keyword | category
  deriving DecidableEq, Repr

/-- The cascade of `RuleBasedMatcher._match_term_to_clause`, instrumented
with the list of strategies evaluated before the cascade exits. -/
def matchTermToClauseSteps (term : ExtractedTerm) (clause : AnalyzedClause) :
    Option (MatchMethod × ℚ) × List Strategy :=
  let title_confidence := matchByTitle term clause
  if title_confidence > 0.5 then (some (.RULE_TITLE, title_confidence), [.title])
  else
    let number_confidence := matchByNumber term clause
    if number_confidence > 0.5 then (some (.RULE_NUMBER, number_confidence), [.title, .number])
    else
      let keyword_confidence := matchByKeyword term clause
      if keyword_confidence > 0.5 then
        (some (.RULE_KEYWORD, keyword_confidence), [.title, .number, .keyword])
      else
        let category_confidence := matchByCategory term clause
        if category_confidence > 0.4 then
          (some (.RULE_KEYWORD, category_confidence), [.title, .number, .keyword, .category])
        else (none, [.title, .number, .keyword, .category])

/-- Result of `RuleBasedMatcher._match_term_to_clause`. -/
def matchTermToClause (term : ExtractedTerm) (clause : AnalyzedClause) :
    Option (MatchMethod × ℚ) :=
  (matchTermToClauseSteps term clause).1

/-- Candidate list of `RuleBasedMatcher.match` (renamed `rmatch` because
`match` is a Lean keyword): per-clause cascade results, stably sorted by
confidence descending. -/
def rmatch (term : ExtractedTerm) (clauses : List AnalyzedClause) :
    List (AnalyzedClause × MatchMethod × ℚ) :=
  sortDescBy (fun x => x.2.2)
    (clauses.filterMap (fun c => (matchTermToClause term c).map (fun mc => (c, mc.1, mc.2))))

end RuleBasedMatcher

/-! ## Semantic matcher (`alignment/semantic_matcher.py`) -/

/-- Models the pgvector query of `SemanticMatcher._match_with_pgvector`
(the SQL against `clause_embeddings`): arguments are the query embedding,
the similarity threshold and the result limit interpolated into the SQL;
the result rows are `(clause_id, similarity)` pairs, and `none` models a
raised database exception (triggering the in-memory fallback). -/
abbrev DbOracle := List ℚ → ℚ → Nat → Option (List (String × ℚ))

/-- State of `SemanticMatcher`.  `embedding_model` is the injected
sentence-transformers model: `none` models a missing model, and the inner
`Option` models an `encode` exception.  `sqrtFn` models the floating-point
square root `** 0.5` used by `_cosine_similarity`. -/
@[ext]
structure SemanticMatcher where
  embedding_model : Option (String → Option (List ℚ))
  similarity_threshold : ℚ
  db_connection : Option DbOracle
  sqrtFn : ℚ → ℚ

namespace SemanticMatcher

/-- `SemanticMatcher.is_available`. -/
def is_available (m : SemanticMatcher) : Bool := m.embedding_model.isSome

/-- `SemanticMatcher._generate_embedding`. -/
def generateEmbedding (m : SemanticMatcher) (text : String) : Option (List ℚ) :=
  match m.embedding_model with
  | none => none
  | some encode => encode text

/-- Python `sum(a * b for a, b in zip(vec1, vec2))`. -/
def dotProduct (vec1 vec2 : List ℚ) : ℚ :=
  ((vec1.zip vec2).map (fun p => p.1 * p.2)).sum

/-- Python `sum(a * a for a in vec)` (the squared Euclidean norm before
the `** 0.5`). -/
def sumSq (vec : List ℚ) : ℚ :=
  (vec.map (fun a => a * a)).sum

/-- `SemanticMatcher._cosine_similarity`: dot product over the zipped
vectors divided by the product of the Euclidean norms, 0 when the
dimensions differ or either norm is zero. -/
def cosineSimilarity (sqrtFn : ℚ → ℚ) (vec1 vec2 : List ℚ) : ℚ :=
  if vec1.length ≠ vec2.length then 0
  else
    let dot_product := dotProduct vec1 vec2
    let norm1 := sqrtFn (sumSq vec1)
    let norm2 := sqrtFn (sumSq vec2)
    if norm1 = 0 ∨ norm2 = 0 then 0
    else dot_product / (norm1 * norm2)

/-- `SemanticMatcher._match_in_memory`. -/
def matchInMemory (m : SemanticMatcher) (term_embedding : List ℚ)
    (clauses : List AnalyzedClause) (max_results : Nat) :
    List (AnalyzedClause × MatchMethod × ℚ) :=
  let results := clauses.filterMap (fun clause =>
    let sim? : Option ℚ :=
      match clause.semantic_embedding with
      | some e => some (cosineSimilarity m.sqrtFn term_embedding e)
      | none => (generateEmbedding m clause.full_text).map
          (fun ce => cosineSimilarity m.sqrtFn term_embedding ce)
    match sim? with
    | some similarity =>
      if similarity ≥ m.similarity_threshold then
        some (clause, MatchMethod.SEMANTIC, similarity)
      else none
    | none => none)
  (sortDescBy (fun x => x.2.2) results).take max_results

/-- The clause-id lookup map of `_match_with_pgvector`
(`{clause.id: clause for clause in clauses}`: a later clause with a
duplicate id overwrites an earlier one). -/
def lookupLastClause (clauses : List AnalyzedClause) (cid : String) : Option AnalyzedClause :=
  clauses.reverse.find? (fun c => c.id = cid)

/-- `SemanticMatcher._match_with_pgvector`: delegates to the database
oracle and maps returned ids back to clauses, falling back to in-memory
matching when the oracle raises. -/
def matchWithPgvector (m : SemanticMatcher) (term_embedding : List ℚ)
    (clauses : List AnalyzedClause) (max_results : Nat) :
    List (AnalyzedClause × MatchMethod × ℚ) :=
  match m.db_connection with
  | none => []
  | some query =>
    match query term_embedding m.similarity_threshold max_results with
    | none => matchInMemory m term_embedding clauses max_results
    | some rows =>
      rows.filterMap (fun row =>
        (lookupLastClause clauses row.1).map (fun c => (c, MatchMethod.SEMANTIC, row.2)))

/-- `SemanticMatcher.match` (renamed `smatch` because `match` is a Lean
keyword). -/
def smatch (m : SemanticMatcher) (term : ExtractedTerm)
    (clauses : List AnalyzedClause) (max_results : Nat) :
    List (AnalyzedClause × MatchMethod × ℚ) :=
  if m.is_available = false then []
  else
    match generateEmbedding m term.raw_text with
    | none => []
    | some term_embedding =>
      if m.db_connection.isSome then matchWithPgvector m term_embedding clauses max_results
      else matchInMemory m term_embedding clauses max_results

/-- `SemanticMatcher.set_similarity_threshold`: rejects values outside
`[0, 1]` with a `ValueError`, modelled as `Except.error`. -/
def set_similarity_threshold (m : SemanticMatcher) (threshold : ℚ) :
    Except String SemanticMatcher :=
  if 0 ≤ threshold ∧ threshold ≤ 1 then
    .ok { m with similarity_threshold := threshold }
  else .error "Threshold must be between 0.0 and 1.0"

end SemanticMatcher

/-- Specification of an over-approximating square root: this is what the
soundness of the cosine-similarity upper bound needs from the routine
standing in for the floating-point `** 0.5`. -/
def SqrtUpper (f : ℚ → ℚ) : Prop :=
  ∀ q, 0 ≤ q → 0 ≤ f q ∧ q ≤ (f q) ^ 2

/-- Contract of the pgvector backend: every row returned by the SQL of
`_match_with_pgvector` satisfies its own `WHERE 1 - (embedding <=> q) >=
threshold` clause, and its similarity `1 - d` is at most 1 because the
cosine distance `d` is nonnegative. -/
def DbWithinBounds (db : DbOracle) : Prop :=
  ∀ emb thr lim rows, db emb thr lim = some rows → ∀ p ∈ rows, thr ≤ p.2 ∧ p.2 ≤ 1

/-! ## Alignment engine (`alignment/alignment_engine.py`) -/

/-- Mutable state of an `AlignmentEngine` instance.  The rule matcher is
stateless (its rule table is the fixed `RuleBasedMatcher.rules`), so only
the semantic matcher, the thresholds, the per-run match counter and the
per-category policy maps are carried. -/
@[ext]
structure AlignmentEngine where
  semantic_matcher : SemanticMatcher
  confidence_threshold : ℚ
  match_counter : Nat
  action_policies : List (String × String)
  review_thresholds_by_category : List (String × ℚ)

/-- First-match lookup in an association list, modelling Python
`dict.get` (the source dicts have unique keys). -/
def alookup {β : Type _} (l : List (String × β)) (k : String) : Option β :=
  (l.find? (fun p => p.1 = k)).map (fun p => p.2)

namespace AlignmentEngine

/-- `AlignmentEngine.__init__` (with `confidence_threshold` defaulting to
0.7 and the semantic matcher constructed with `similarity_threshold=0.6`). -/
def create (embedding_model : Option (String → Option (List ℚ)))
    (db_connection : Option DbOracle) (sqrtFn : ℚ → ℚ)
    (confidence_threshold : ℚ := 0.7) : AlignmentEngine :=
  { semantic_matcher :=
      { embedding_model := embedding_model
        similarity_threshold := 0.6
        db_connection := db_connection
        sqrtFn := sqrtFn }
    confidence_threshold := confidence_threshold
    match_counter := 0
    action_policies := []
    review_thresholds_by_category := [] }

/-- The category-to-fillable-type table of
`AlignmentEngine._check_type_compatibility` (the dict covers every
`TermCategory`, so the `.get` default `[FillableType.TEXT]` is
unreachable). -/
def categoryToTypes : TermCategory → List FillableType
  | .INVESTMENT_AMOUNT => [.CURRENCY, .NUMBER]
  | .VALUATION => [.CURRENCY, .NUMBER]
  | .PRICING => [.CURRENCY, .NUMBER]
  | .BOARD_SEATS => [.NUMBER, .TEXT]
  | .VOTING_RIGHTS => [.PERCENTAGE, .TEXT]
  | .LIQUIDATION_PREFERENCE => [.NUMBER, .PERCENTAGE]
  | .ANTI_DILUTION => [.TEXT]
  | .INFORMATION_RIGHTS => [.TEXT]
  | .CLOSING_CONDITIONS => [.TEXT, .DATE]
  | .CONDITIONS_PRECEDENT => [.TEXT, .DATE]
  | .OTHER => [.TEXT]

/-- `AlignmentEngine._check_type_compatibility`. -/
def checkTypeCompatibility (term : ExtractedTerm) (segment : FillableSegment) : Bool :=
  decide (segment.expected_type ∈ categoryToTypes term.category)

/-- The category-keyword table of `AlignmentEngine._get_term_keywords`
(`OTHER` is absent from the dict, so the `.get` default `[]` applies). -/
def getTermKeywords : TermCategory → List String
  | .INVESTMENT_AMOUNT => ["investment", "amount", "capital", "投资", "金额"]
  | .VALUATION => ["valuation", "value", "估值"]
  | .PRICING => ["price", "share", "价格", "股"]
  | .BOARD_SEATS => ["board", "director", "seat", "董事", "席位"]
  | .VOTING_RIGHTS => ["voting", "vote", "rights", "投票", "表决"]
  | .LIQUIDATION_PREFERENCE => ["liquidation", "preference", "清算", "优先"]
  | .ANTI_DILUTION => ["dilution", "adjustment", "稀释", "调整"]
  | .INFORMATION_RIGHTS => ["information", "reporting", "信息", "报告"]
  | .CLOSING_CONDITIONS => ["closing", "conditions", "交割", "条件"]
  | .CONDITIONS_PRECEDENT => ["precedent", "conditions", "先决", "条件"]
  | .OTHER => []

/-- `AlignmentEngine._score_segment_for_term`. -/
def scoreSegmentForTerm (term : ExtractedTerm) (segment : FillableSegment) : ℚ :=
  let typeScore : ℚ := if checkTypeCompatibility term segment then 0.5 else 0
  let context := pyLower (segment.context_before ++ " " ++ segment.context_after)
  let term_keywords := getTermKeywords term.category
  let keyword_matches : ℕ := term_keywords.countP (fun kw => containsSub context (pyLower kw))
  if term_keywords.isEmpty then typeScore
  else typeScore + 0.5 * ((keyword_matches : ℚ) / (term_keywords.length : ℚ))

/-- `AlignmentEngine._find_best_fillable_segment`: the strictly best
scoring segment, kept only when its score exceeds 0.3. -/
def findBestFillableSegment (term : ExtractedTerm) (clause : AnalyzedClause) :
    Option FillableSegment :=
  if clause.fillable_segments.isEmpty then none
  else
    let best := clause.fillable_segments.foldl
      (fun (acc : Option FillableSegment × ℚ) segment =>
        let score := scoreSegmentForTerm term segment
        if score > acc.2 then (some segment, score) else acc) (none, 0)
    if best.2 > 0.3 then best.1 else none

/-- Placeholder pattern `^_{2,}$` of `_classify_action`. -/
def underscoresPat (s : String) : Bool :=
  decide (2 ≤ s.data.length) && s.data.all (fun c => c = '_')

/-- Placeholder pattern `^\[.*\]$` of `_classify_action` (`.` does not
match a newline; the stripped value has no leading or trailing
whitespace, so `$` is end-of-string). -/
def bracketedPat (s : String) : Bool :=
  decide (2 ≤ s.data.length) && s.data.head? = some '[' && s.data.getLast? = some ']'
    && (s.data.drop 1).dropLast.all (fun c => c ≠ '\n')

/-- Placeholder pattern `^XX+$` of `_classify_action`. -/
def xxPat (s : String) : Bool :=
  decide (2 ≤ s.data.length) && s.data.all (fun c => c = 'X')

/-- Placeholder pattern `^YYYY` of `_classify_action`. -/
def yyyyPat (s : String) : Bool := pyStartsWith s "YYYY"

/-- The `is_placeholder` test of `_classify_action` over the stripped
current value. -/
def isPlaceholder (current : String) : Bool :=
  underscoresPat current || bracketedPat current || xxPat current || yyyyPat current

/-- `AlignmentEngine._classify_action`: a per-category "insert"/"override"
policy wins; otherwise a truthy current value is tested against the
placeholder patterns (placeholder or no value ⇒ INSERT, real value ⇒
OVERRIDE).  An empty-string `current_value` is falsy in Python, hence
INSERT. -/
def classifyAction (e : AlignmentEngine) (term : ExtractedTerm) (clause : AnalyzedClause)
    (fillable_segment : Option FillableSegment) : ActionType :=
  let policy := alookup e.action_policies term.category.value
  if policy = some "insert" then .INSERT
  else if policy = some "override" then .OVERRIDE
  else
    match fillable_segment with
    | some segment =>
      match segment.current_value with
      | some v =>
        if v = "" then .INSERT
        else
          let current := pyStrip v
          if isPlaceholder current then .INSERT else .OVERRIDE
      | none => .INSERT
    | none => .INSERT

/-- `AlignmentEngine._create_match`: builds the `AlignmentMatch` and
advances the per-run match counter. -/
def createMatch (e : AlignmentEngine) (term : ExtractedTerm) (clause : AnalyzedClause)
    (method : MatchMethod) (confidence : ℚ) : AlignmentEngine × AlignmentMatch :=
  let fillable_segment := findBestFillableSegment term clause
  let action := classifyAction e term clause fillable_segment
  let category_name := term.category.value
  let threshold := (alookup e.review_thresholds_by_category category_name).getD
    e.confidence_threshold
  let needs_review := decide (confidence < threshold)
  let counter := e.match_counter + 1
  ({ e with match_counter := counter },
   { id := "match_" ++ pad4 counter
     ts_term_id := term.id
     clause_id := clause.id
     fillable_segment_id := fillable_segment.map (fun s => s.id)
     match_method := method
     confidence := confidence
     action := action
     needs_review := needs_review })

/-- One iteration of the rule-candidate loop of `_align_term`: create a
match for the candidate and append it. -/
def ruleStep (term : ExtractedTerm) (acc : AlignmentEngine × List AlignmentMatch)
    (rm : AnalyzedClause × MatchMethod × ℚ) : AlignmentEngine × List AlignmentMatch :=
  let cm := createMatch acc.1 term rm.1 rm.2.1 rm.2.2
  (cm.1, acc.2 ++ [cm.2])

/-- One iteration of the semantic-candidate loop of `_align_term`: skip
the candidate when a match for the same clause id is already present,
otherwise create and append a match. -/
def semStep (term : ExtractedTerm) (acc : AlignmentEngine × List AlignmentMatch)
    (sm : AnalyzedClause × MatchMethod × ℚ) : AlignmentEngine × List AlignmentMatch :=
  if acc.2.any (fun m => m.clause_id = sm.1.id) then acc
  else
    let cm := createMatch acc.1 term sm.1 sm.2.1 sm.2.2
    (cm.1, acc.2 ++ [cm.2])

/-- `AlignmentEngine._align_term`, instrumented with a flag recording
whether the semantic-matcher branch was entered.  `_create_match` leaves
every engine field except the counter untouched, so reading
`self._confidence_threshold` and `self._semantic_matcher` after the
rule-match loop reads the same values as on entry. -/
def alignTermI (e : AlignmentEngine) (term : ExtractedTerm)
    (clauses : List AnalyzedClause) : AlignmentEngine × List AlignmentMatch × Bool :=
  let rule_matches := RuleBasedMatcher.rmatch term clauses
  let step1 := rule_matches.foldl (ruleStep term) (e, [])
  let semInvoked : Bool :=
    match step1.2 with
    | [] => true
    | m :: _ => decide (m.confidence < e.confidence_threshold)
  let step2 :=
    if semInvoked then
      let semantic_matches := SemanticMatcher.smatch e.semantic_matcher term clauses 5
      semantic_matches.foldl (semStep term) step1
    else step1
  (step2.1, sortDescBy (fun m => m.confidence) step2.2, semInvoked)

/-- `AlignmentEngine._align_term`. -/
def alignTerm (e : AlignmentEngine) (term : ExtractedTerm)
    (clauses : List AnalyzedClause) : AlignmentEngine × List AlignmentMatch :=
  let r := alignTermI e term clauses
  (r.1, r.2.1)

/-- `AlignmentEngine._create_unmatched_term_entry`. -/
def createUnmatchedTermEntry (term : ExtractedTerm) : String :=
  let expected_categories := RuleBasedMatcher.get_expected_clause_categories term.category
  let category_names := expected_categories.map (fun c => c.value)
  "Term '" ++ term.title ++ "' (ID: " ++ term.id ++ ", Category: " ++ term.category.value
    ++ ") could not be matched. Suggested review: Look for clauses in categories "
    ++ (if category_names.isEmpty then "any" else String.intercalate ", " category_names)
    ++ ". Source: " ++ term.source_section_id

/-- The per-term loop of `AlignmentEngine.align`: accumulates the best
match of each term (in document order) and the unmatched-term entries
(in document order), threading the engine's match counter. -/
def processTerms (e : AlignmentEngine) (clauses : List AnalyzedClause) :
    List ExtractedTerm → AlignmentEngine × List AlignmentMatch × List String
  | [] => (e, [], [])
  | term :: ts =>
    let r1 := alignTermI e term clauses
    let rest := processTerms r1.1 clauses ts
    match r1.2.1 with
    | best :: _ => (rest.1, best :: rest.2.1, rest.2.2)
    | [] => (rest.1, rest.2.1, createUnmatchedTermEntry term :: rest.2.2)

/-- `AlignmentEngine.set_confidence_threshold`: rejects values outside
`[0, 1]` with a `ValueError`, modelled as `Except.error`. -/
def set_confidence_threshold (e : AlignmentEngine) (threshold : ℚ) :
    Except String AlignmentEngine :=
  if 0 ≤ threshold ∧ threshold ≤ 1 then
    .ok { e with confidence_threshold := threshold }
  else .error "Threshold must be between 0.0 and 1.0"

/-- `AlignmentEngine.get_confidence_threshold`. -/
def get_confidence_threshold (e : AlignmentEngine) : ℚ := e.confidence_threshold

/-- Run configuration accepted by `align` / `_apply_config`: each field is
`some` exactly when the corresponding key is present in the config dict. -/
structure AlignConfig where
  confidence_threshold : Option ℚ := none
  semantic_threshold : Option ℚ := none
  action_policies_by_category : Option (List (String × String)) := none
  review_thresholds_by_category : Option (List (String × ℚ)) := none

/-- `AlignmentEngine._apply_config`: the two scalar thresholds go through
the validating setters (a `ValueError` propagates); the two per-category
dicts are copied in as-is, without validation. -/
def applyConfig (e : AlignmentEngine) (config : AlignConfig) :
    Except String AlignmentEngine :=
  match (match config.confidence_threshold with
         | some t => set_confidence_threshold e t
         | none => .ok e) with
  | .error msg => .error msg
  | .ok e1 =>
    match (match config.semantic_threshold with
           | some t =>
             (SemanticMatcher.set_similarity_threshold e1.semantic_matcher t).map
               (fun m => { e1 with semantic_matcher := m })
           | none => .ok e1) with
    | .error msg => .error msg
    | .ok e2 =>
      let e3 := match config.action_policies_by_category with
        | some ps => { e2 with action_policies := ps }
        | none => e2
      let e4 := match config.review_thresholds_by_category with
        | some ts => { e3 with review_thresholds_by_category := ts }
        | none => e3
      .ok e4

/-- `AlignmentEngine.align`: resets the per-run counter, applies the
optional configuration (a `ValueError` from a setter propagates as
`Except.error`), processes the terms in document order, and derives the
unmatched clauses.  The incrementally built `matched_clause_ids` set
equals the set of `clause_id`s of the accumulated best matches, which is
how it is written here.  `now` models `datetime.now(timezone.utc)`. -/
def align (e : AlignmentEngine) (ts_result : TSExtractionResult)
    (template_result : TemplateAnalysisResult) (config : Option AlignConfig)
    (now : String) : Except String (AlignmentEngine × AlignmentResult) :=
  let e0 := { e with match_counter := 0 }
  match (match config with
         | some cfg => applyConfig e0 cfg
         | none => .ok e0) with
  | .error msg => .error msg
  | .ok e1 =>
    let run := processTerms e1 template_result.clauses ts_result.terms
    let matched_clause_ids : List String := run.2.1.map (fun m => m.clause_id)
    let unmatched_clauses :=
      (template_result.clauses.filter (fun c => decide (c.id ∉ matched_clause_ids))).map
        (fun c => c.id)
    .ok (run.1,
      { ts_document_id := ts_result.document_id
        template_document_id := template_result.document_id
        «matches» := run.2.1
        unmatched_terms := run.2.2
        unmatched_clauses := unmatched_clauses
        alignment_timestamp := now })

/-- A term for which `_align_term` produces no candidates at all: the rule
matcher returns nothing and the semantic matcher returns nothing.  This
characterizes exactly the terms for which `align` appends an
unmatched-term entry; it depends on the engine only through the semantic
matcher, so it is unaffected by the match-counter threading. -/
def hasNoCandidates (e : AlignmentEngine) (clauses : List AnalyzedClause)
    (term : ExtractedTerm) : Prop :=
  RuleBasedMatcher.rmatch term clauses = [] ∧
  SemanticMatcher.smatch e.semantic_matcher term clauses 5 = []

instance (e : AlignmentEngine) (clauses : List AnalyzedClause) (term : ExtractedTerm) :
    Decidable (hasNoCandidates e clauses term) := by
  unfold hasNoCandidates; infer_instance

/-- The terms of a run for which no candidate is found, in document order:
exactly the terms whose synthesized unmatched-term entries make up
`unmatched_terms`. -/
def unmatchedSourceTerms (e : AlignmentEngine) (clauses : List AnalyzedClause)
    (terms : List ExtractedTerm) : List ExtractedTerm :=
  terms.filter (fun t => decide (hasNoCandidates e clauses t))

/-- Well-formedness of the engine state assumed by the confidence-bound
claim: the semantic similarity threshold lies in `[0, 1]`.  It holds for
every engine built by `create` (which fixes 0.6) and is preserved by the
validating setters. -/
def EngineWF (e : AlignmentEngine) : Prop :=
  0 ≤ e.semantic_matcher.similarity_threshold ∧ e.semantic_matcher.similarity_threshold ≤ 1

/-- The `(ts_term_id, clause_id, match_method, action)` observation of a
match used by the determinism claim. -/
def matchTuple (m : AlignmentMatch) : String × String × MatchMethod × ActionType :=
  (m.ts_term_id, m.clause_id, m.match_method, m.action)

end AlignmentEngine

namespace RuleBasedMatcher

/-- Keyword score exactly as the specification words it: the maximum, over
all `MatchRule` records whose `term_categories` contain the term's
category and whose `clause_categories` contain the clause's category, of
`base_confidence * (0.5 + 0.5 * matched_keywords / total_keywords)` —
including rules none of whose keywords occur in the clause text. -/
def claimKeywordScore (term : ExtractedTerm) (clause : AnalyzedClause) : ℚ :=
  ((rules.filter (fun r =>
      decide (term.category ∈ r.term_categories ∧ clause.category ∈ r.clause_categories))).map
    (fun r => r.base_confidence * (0.5 + 0.5 *
      ((ruleKeywordMatches clause r : ℚ) /
        ((r.keywords_en.length + r.keywords_zh.length : ℕ) : ℚ))))).foldr max 0

/-- Keyword score as the code computes it, in specification form: the
maximum of the same formula restricted to applicable rules at least one of
whose keywords occurs in the clause text (a rule with zero matched
keywords contributes nothing). -/
def claimKeywordScoreAmended (term : ExtractedTerm) (clause : AnalyzedClause) : ℚ :=
  ((rules.filter (fun r =>
      decide (term.category ∈ r.term_categories ∧ clause.category ∈ r.clause_categories ∧
        0 < ruleKeywordMatches clause r))).map
    (fun r => r.base_confidence * (0.5 + 0.5 *
      ((ruleKeywordMatches clause r : ℚ) /
        ((r.keywords_en.length + r.keywords_zh.length : ℕ) : ℚ))))).foldr max 0

end RuleBasedMatcher

namespace AlignmentEngine

/-- The placeholder property as the specification words it: a run of at
least two underscores, a bracketed token, a run of at least two `X`s, or a
`YYYY` date-placeholder prefix. -/
def placeholderSpec (s : String) : Prop :=
  (2 ≤ s.data.length ∧ ∀ c ∈ s.data, c = '_') ∨
  (2 ≤ s.data.length ∧ s.data.head? = some '[' ∧ s.data.getLast? = some ']' ∧
    ∀ c ∈ (s.data.drop 1).dropLast, c ≠ '\n') ∨
  (2 ≤ s.data.length ∧ ∀ c ∈ s.data, c = 'X') ∨
  headMatch "YYYY".data s.data = true

end AlignmentEngine

/-! ## Concrete instances

Small fixed inputs used to exercise the theorems on concrete runs. -/

/-- An over-approximating stand-in for the square root (`SqrtUpper` holds
for it), used to instantiate engines on concrete runs. -/
def sqrtStub : ℚ → ℚ := fun q => q + 1

/-- An engine as built by `AlignmentEngine(confidence_threshold=0.7)` with
no embedding model and no database connection. -/
def engW : AlignmentEngine := AlignmentEngine.create none none sqrtStub 0.7

def termWA : ExtractedTerm :=
  { id := "t1", category := .INVESTMENT_AMOUNT, title := "Alpha",
    raw_text := "x", source_section_id := "s1" }

def termWB : ExtractedTerm :=
  { id := "t2", category := .OTHER, title := "z",
    raw_text := "y", source_section_id := "s2" }

def segW : FillableSegment :=
  { id := "seg1", expected_type := .CURRENCY, context_before := "investment amount",
    context_after := "", current_value := some "____" }

/-- A fillable segment holding a real prior value rather than a
placeholder. -/
def segOvr : FillableSegment :=
  { segW with current_value := some "USD 5,000,000" }

def clauseWA : AnalyzedClause :=
  { id := "c1", section_id := "sa", title := "Alpha",
    category := .INVESTMENT_TERMS, full_text := "f", fillable_segments := [segW] }

def clauseWB : AnalyzedClause :=
  { id := "c2", section_id := "sb", title := "Beta",
    category := .DEFINITIONS, full_text := "g" }

def tsW : TSExtractionResult := { document_id := "d1", terms := [termWA, termWB] }

def tplW : TemplateAnalysisResult := { document_id := "d2", clauses := [clauseWA, clauseWB] }

def fallbackResult : AlignmentResult :=
  { ts_document_id := "", template_document_id := "" }

def fallbackMatch : AlignmentMatch :=
  { id := "", ts_term_id := "", clause_id := "", fillable_segment_id := none,
    match_method := .SEMANTIC, confidence := 0, action := .INSERT, needs_review := false }

/-- The engine and result of running `align` on the standard concrete
inputs (the run succeeds, so the fallback arm is never taken). -/
def pW : AlignmentEngine × AlignmentResult :=
  match AlignmentEngine.align engW tsW tplW none "T" with
  | .ok p => p
  | .error _ => (engW, fallbackResult)

/-- The first match of the standard concrete run. -/
def mW : AlignmentMatch := pW.2.«matches».headD fallbackMatch

/-- A second run on the same engine instance with identical inputs. -/
def pW2 : AlignmentEngine × AlignmentResult :=
  match AlignmentEngine.align pW.1 tsW tplW none "T2" with
  | .ok p => p
  | .error _ => (engW, fallbackResult)

/-- A term whose id collides with `termWA`'s but which no clause matches. -/
def termXB : ExtractedTerm :=
  { id := "t1", category := .OTHER, title := "z",
    raw_text := "y", source_section_id := "s2" }

def tsX : TSExtractionResult := { document_id := "d1", terms := [termWA, termXB] }

/-- An engine with a per-category review threshold of 0.9 for
liquidation-preference terms (global threshold 0.7). -/
def eC4 : AlignmentEngine :=
  { AlignmentEngine.create none none sqrtStub 0.7 with
    review_thresholds_by_category := [("liquidation_preference", 0.9)] }

def tC4 : ExtractedTerm :=
  { id := "t4", category := .LIQUIDATION_PREFERENCE, title := "liquidation",
    raw_text := "x", source_section_id := "s" }

def cC4 : AnalyzedClause :=
  { id := "c4", section_id := "sec", title := "liquidation preference",
    category := .LIQUIDATION, full_text := "y" }

/-- The best match `_align_term` produces for `termWA` on the standard
clauses. -/
def mC4w : AlignmentMatch :=
  (AlignmentEngine.alignTermI engW termWA tplW.clauses).2.1.headD fallbackMatch

def tsE : TSExtractionResult := { document_id := "de" }

def tplE : TemplateAnalysisResult := { document_id := "df" }

/-- A configuration carrying an out-of-range per-category review
threshold. -/
def cfgBad : AlignmentEngine.AlignConfig :=
  { review_thresholds_by_category := some [("investment_amount", 5)] }

/-- A configuration setting the global confidence threshold to 0.9. -/
def cfg7 : AlignmentEngine.AlignConfig := { confidence_threshold := some 0.9 }

/-- A term/clause pair whose only rule-matcher signal is the clause
category (no keyword of the applicable rule occurs in the clause text). -/
def tX8 : ExtractedTerm :=
  { id := "t8", category := .INVESTMENT_AMOUNT, title := "aaa",
    raw_text := "zzz", source_section_id := "s8" }

def cX8 : AnalyzedClause :=
  { id := "c8", section_id := "sec", title := "bbb",
    category := .INVESTMENT_TERMS, full_text := "qqq" }

/-- A term/clause pair for which every keyword of the applicable rule
occurs in the clause text. -/
def tW8 : ExtractedTerm :=
  { id := "w8", category := .INVESTMENT_AMOUNT, title := "a",
    raw_text := "z", source_section_id := "s" }

def cW8 : AnalyzedClause :=
  { id := "cw8", section_id := "secw", title := "b",
    category := .INVESTMENT_TERMS,
    full_text := "investment amount subscription purchase capital funding consideration 投资 金额 认购 出资 对价" }

/-- A term and clause with empty titles. -/
def tE9 : ExtractedTerm :=
  { id := "te", category := .OTHER, title := "",
    raw_text := "", source_section_id := "" }

def cE9 : AnalyzedClause :=
  { id := "ce", section_id := "", title := "",
    category := .DEFINITIONS, full_text := "" }

/-! ## Lemmas about the stable sort -/

theorem mem_insertDescBy (key : α → ℚ) (x : α) (l : List α) (a : α) :
    a ∈ insertDescBy key x l ↔ a = x ∨ a ∈ l := by
  induction l with
  | nil => simp [insertDescBy]
  | cons y ys ih =>
    simp only [insertDescBy]
    split
    · simp [List.mem_cons]
    · simp only [List.mem_cons, ih]
      tauto

theorem mem_sortDescBy (key : α → ℚ) (l : List α) (a : α) :
    a ∈ sortDescBy key l ↔ a ∈ l := by
  induction l with
  | nil => simp [sortDescBy]
  | cons x xs ih => simp [sortDescBy, mem_insertDescBy, ih]

theorem sortDescBy_eq_nil_iff (key : α → ℚ) (l : List α) :
    sortDescBy key l = [] ↔ l = [] := by
  cases l with
  | nil => simp [sortDescBy]
  | cons x xs =>
    simp only [sortDescBy]
    constructor
    · intro h
      have hx : x ∈ insertDescBy key x (sortDescBy key xs) := by
        simp [mem_insertDescBy]
      rw [h] at hx
      exact absurd hx (List.not_mem_nil x)
    · intro h
      exact absurd h (List.cons_ne_nil x xs)

/-! ## Bounds of the rule-based strategies -/

namespace RuleBasedMatcher

theorem matchByTitle_bounds (term : ExtractedTerm) (clause : AnalyzedClause) :
    0 ≤ matchByTitle term clause ∧ matchByTitle term clause ≤ 0.95 := by
  unfold matchByTitle
  split
  · norm_num
  dsimp only
  split
  · norm_num
  split
  · norm_num
  split
  · norm_num
  split
  · norm_num
  split
  · rename_i hu
    split
    · rename_i hj
      set tw := (findWords (pyLower term.title)).toFinset \ stopWords with htw
      set cw := (findWords (pyLower clause.title)).toFinset \ stopWords with hcw
      have hcard : ((tw ∩ cw).card : ℚ) ≤ ((tw ∪ cw).card : ℚ) := by
        exact_mod_cast Finset.card_le_card (Finset.inter_subset_union)
      have hnn : (0 : ℚ) ≤ ((tw ∩ cw).card : ℚ) := by positivity
      have hup : (0 : ℚ) < ((tw ∪ cw).card : ℚ) := hu
      have hj1 : ((tw ∩ cw).card : ℚ) / ((tw ∪ cw).card : ℚ) ≤ 1 :=
        div_le_one_of_le₀ hcard (le_of_lt hup)
      have hj0 : (0 : ℚ) ≤ ((tw ∩ cw).card : ℚ) / ((tw ∪ cw).card : ℚ) :=
        div_nonneg hnn (le_of_lt hup)
      constructor <;> nlinarith
    · norm_num
  · norm_num

theorem pairScanInner_bounds (t : String) (l : List String) (q : ℚ)
    (h : pairScanInner t l = some q) : 0 ≤ q ∧ q ≤ 0.75 := by
  induction l with
  | nil => simp [pairScanInner] at h
  | cons c cs ih =>
    unfold pairScanInner at h
    split at h
    · cases h; norm_num
    split at h
    · cases h; norm_num
    · exact ih h

theorem pairScan_bounds (ts cls : List String) (q : ℚ)
    (h : pairScan ts cls = some q) : 0 ≤ q ∧ q ≤ 0.75 := by
  induction ts with
  | nil => simp [pairScan] at h
  | cons t ts' ih =>
    unfold pairScan at h
    revert h
    cases hinner : pairScanInner t cls with
    | some q' =>
      intro h
      cases h
      exact pairScanInner_bounds _ _ _ hinner
    | none => exact ih

theorem matchByNumber_bounds (term : ExtractedTerm) (clause : AnalyzedClause) :
    0 ≤ matchByNumber term clause ∧ matchByNumber term clause ≤ 0.75 := by
  unfold matchByNumber
  dsimp only
  split
  · norm_num
  · cases hps : pairScan (extractSectionNumbers term.raw_text)
      (extractSectionNumbers clause.section_id) with
    | none => dsimp only; norm_num
    | some q => dsimp only; exact pairScan_bounds _ _ _ hps

theorem rules_base_confidence_bounds :
    ∀ r ∈ rules, 0 ≤ r.base_confidence ∧ r.base_confidence ≤ 0.9 := by
  intro r hr
  fin_cases hr <;> norm_num

theorem ruleKeywordConfidence_bounds (clause : AnalyzedClause) (r : MatchRule)
    (hb : 0 ≤ r.base_confidence ∧ r.base_confidence ≤ 0.9) (q : ℚ)
    (h : ruleKeywordConfidence clause r = some q) : 0 ≤ q ∧ q ≤ 0.9 := by
  unfold ruleKeywordConfidence at h
  split at h
  · cases h
  · dsimp only at h
    split at h
    · rename_i hcond
      cases h
      have hmt : ruleKeywordMatches clause r ≤ r.keywords_en.length + r.keywords_zh.length := by
        unfold ruleKeywordMatches
        exact Nat.add_le_add (List.countP_le_length _) (List.countP_le_length _)
      have htp : (0 : ℚ) < ((r.keywords_en.length + r.keywords_zh.length : ℕ) : ℚ) := by
        exact_mod_cast hcond.1
      have hm : ((ruleKeywordMatches clause r : ℕ) : ℚ)
          ≤ ((r.keywords_en.length + r.keywords_zh.length : ℕ) : ℚ) := by
        exact_mod_cast hmt
      have hm0 : (0 : ℚ) ≤ ((ruleKeywordMatches clause r : ℕ) : ℚ) := by positivity
      have hr1 : ((ruleKeywordMatches clause r : ℕ) : ℚ)
          / ((r.keywords_en.length + r.keywords_zh.length : ℕ) : ℚ) ≤ 1 :=
        div_le_one_of_le₀ hm (le_of_lt htp)
      have hr0 : (0 : ℚ) ≤ ((ruleKeywordMatches clause r : ℕ) : ℚ)
          / ((r.keywords_en.length + r.keywords_zh.length : ℕ) : ℚ) :=
        div_nonneg hm0 (le_of_lt htp)
      push_cast at hr1 hr0 ⊢
      constructor <;> nlinarith [hb.1, hb.2]
    · cases h

theorem keywordFold_bounds (clause : AnalyzedClause) (l : List MatchRule) (init : ℚ)
    (h0 : 0 ≤ init) (h9 : init ≤ 0.9)
    (hr : ∀ r ∈ l, 0 ≤ r.base_confidence ∧ r.base_confidence ≤ 0.9) :
    0 ≤ l.foldl (keywordFoldStep clause) init
    ∧ l.foldl (keywordFoldStep clause) init ≤ 0.9 := by
  induction l generalizing init with
  | nil => exact ⟨h0, h9⟩
  | cons r rs ih =>
    simp only [List.foldl_cons]
    have hrb := hr r (List.mem_cons_self r rs)
    have hrs : ∀ x ∈ rs, 0 ≤ x.base_confidence ∧ x.base_confidence ≤ 0.9 := by
      intro x hx
      exact hr x (List.mem_cons_of_mem r hx)
    cases hc : ruleKeywordConfidence clause r with
    | none =>
      have hstep : keywordFoldStep clause init r = init := by
        unfold keywordFoldStep
        rw [hc]
      rw [hstep]
      exact ih init h0 h9 hrs
    | some q =>
      have hq := ruleKeywordConfidence_bounds clause r hrb q hc
      have hstep : keywordFoldStep clause init r = max init q := by
        unfold keywordFoldStep
        rw [hc]
      rw [hstep]
      exact ih (max init q) (le_max_of_le_left h0) (max_le h9 hq.2) hrs

theorem matchByKeyword_bounds (term : ExtractedTerm) (clause : AnalyzedClause) :
    0 ≤ matchByKeyword term clause ∧ matchByKeyword term clause ≤ 0.9 := by
  unfold matchByKeyword
  dsimp only
  split
  · norm_num
  · refine keywordFold_bounds clause _ 0 (le_refl 0) (by norm_num) ?_
    intro r hrmem
    exact rules_base_confidence_bounds r (List.mem_of_mem_filter hrmem)

theorem matchByCategory_bounds (term : ExtractedTerm) (clause : AnalyzedClause) :
    0 ≤ matchByCategory term clause ∧ matchByCategory term clause ≤ 0.8 := by
  unfold matchByCategory
  dsimp only
  split
  · constructor
    · have hb : (0 : ℚ) ≤ 0.05 *
          (((clause.keywords.map pyLower).countP
            (fun k => containsSub (pyLower term.raw_text) k) : ℕ) : ℚ) := by positivity
      refine le_min (by norm_num) (by nlinarith)
    · exact min_le_left _ _
  · norm_num

theorem matchTermToClause_bounds (term : ExtractedTerm) (clause : AnalyzedClause)
    (mm : MatchMethod) (q : ℚ) (h : matchTermToClause term clause = some (mm, q)) :
    0 ≤ q ∧ q ≤ 1 := by
  have ht := matchByTitle_bounds term clause
  have hn := matchByNumber_bounds term clause
  have hk := matchByKeyword_bounds term clause
  have hc := matchByCategory_bounds term clause
  unfold matchTermToClause matchTermToClauseSteps at h
  dsimp only at h
  split at h
  · simp only [Prod.mk.injEq, Option.some.injEq] at h
    obtain ⟨-, h2⟩ := h
    subst h2
    exact ⟨ht.1, le_trans ht.2 (by norm_num)⟩
  split at h
  · simp only [Prod.mk.injEq, Option.some.injEq] at h
    obtain ⟨-, h2⟩ := h
    subst h2
    exact ⟨hn.1, le_trans hn.2 (by norm_num)⟩
  split at h
  · simp only [Prod.mk.injEq, Option.some.injEq] at h
    obtain ⟨-, h2⟩ := h
    subst h2
    exact ⟨hk.1, le_trans hk.2 (by norm_num)⟩
  split at h
  · simp only [Prod.mk.injEq, Option.some.injEq] at h
    obtain ⟨-, h2⟩ := h
    subst h2
    exact ⟨hc.1, le_trans hc.2 (by norm_num)⟩
  · simp at h

theorem ruleKeywordMatches_le_total (clause : AnalyzedClause) (r : MatchRule) :
    ruleKeywordMatches clause r ≤ r.keywords_en.length + r.keywords_zh.length := by
  unfold ruleKeywordMatches
  exact Nat.add_le_add (List.countP_le_length _) (List.countP_le_length _)

/-- Characterization of a rule's contribution in `_match_by_keyword`: it
is present exactly when the clause category fits and at least one keyword
matched (which forces the keyword list to be nonempty). -/
theorem ruleKeywordConfidence_char (clause : AnalyzedClause) (r : MatchRule) :
    ruleKeywordConfidence clause r =
      if clause.category ∈ r.clause_categories ∧ 0 < ruleKeywordMatches clause r then
        some (r.base_confidence * (0.5 + 0.5 *
          ((ruleKeywordMatches clause r : ℚ) /
            ((r.keywords_en.length + r.keywords_zh.length : ℕ) : ℚ))))
      else none := by
  unfold ruleKeywordConfidence
  split
  · rename_i hno
    rw [if_neg]
    rintro ⟨hcc, -⟩
    exact hno hcc
  · rename_i hcc
    rw [not_not] at hcc
    dsimp only
    split
    · rename_i hcond
      rw [if_pos ⟨hcc, hcond.2⟩]
    · rename_i hcond
      rw [if_neg]
      rintro ⟨-, hm⟩
      exact hcond ⟨lt_of_lt_of_le hm (ruleKeywordMatches_le_total clause r), hm⟩

theorem foldrMax_nonneg (l : List ℚ) : 0 ≤ l.foldr max 0 := by
  induction l with
  | nil => exact le_refl 0
  | cons x xs ih => exact le_max_of_le_right ih

theorem keywordFold_eq_max (clause : AnalyzedClause) (l : List MatchRule) :
    ∀ a : ℚ, 0 ≤ a →
    l.foldl (keywordFoldStep clause) a
    = max a (((l.filter (fun r => decide (clause.category ∈ r.clause_categories ∧
        0 < ruleKeywordMatches clause r))).map
      (fun r => r.base_confidence * (0.5 + 0.5 *
        ((ruleKeywordMatches clause r : ℚ) /
          ((r.keywords_en.length + r.keywords_zh.length : ℕ) : ℚ))))).foldr max 0) := by
  induction l with
  | nil =>
    intro a ha
    simp only [List.filter_nil, List.map_nil, List.foldr_nil, List.foldl_nil]
    exact (max_eq_left ha).symm
  | cons r rs ih =>
    intro a ha
    rw [List.foldl_cons, List.filter_cons]
    by_cases hcond : clause.category ∈ r.clause_categories ∧ 0 < ruleKeywordMatches clause r
    · have hstep : keywordFoldStep clause a r = max a (r.base_confidence * (0.5 + 0.5 *
          ((ruleKeywordMatches clause r : ℚ) /
            ((r.keywords_en.length + r.keywords_zh.length : ℕ) : ℚ)))) := by
        unfold keywordFoldStep
        rw [ruleKeywordConfidence_char clause r, if_pos hcond]
      rw [hstep, decide_eq_true hcond, if_pos rfl]
      rw [ih (max a _) (le_max_of_le_left ha)]
      rw [List.map_cons, List.foldr_cons]
      rw [max_assoc]
    · have hstep : keywordFoldStep clause a r = a := by
        unfold keywordFoldStep
        rw [ruleKeywordConfidence_char clause r, if_neg hcond]
      rw [hstep, decide_eq_false hcond, if_neg (by simp)]
      exact ih a ha

/-- The keyword score computed by `_match_by_keyword` equals the maximum
of the per-rule formula over the applicable rules with at least one
matched keyword. -/
theorem matchByKeyword_eq_amended (term : ExtractedTerm) (clause : AnalyzedClause) :
    matchByKeyword term clause = claimKeywordScoreAmended term clause := by
  unfold matchByKeyword claimKeywordScoreAmended
  dsimp only
  split
  · rename_i hemp
    rw [List.isEmpty_iff] at hemp
    have hnil : rules.filter (fun r =>
        decide (term.category ∈ r.term_categories ∧ clause.category ∈ r.clause_categories ∧
          0 < ruleKeywordMatches clause r)) = [] := by
      rw [List.filter_eq_nil_iff] at hemp ⊢
      intro r hr hdec
      rw [decide_eq_true_eq] at hdec
      exact hemp r hr (decide_eq_true hdec.1)
    rw [hnil]
    rfl
  · rw [keywordFold_eq_max clause _ 0 (le_refl 0)]
    have hff : (rules.filter (fun r => decide (term.category ∈ r.term_categories))).filter
        (fun r => decide (clause.category ∈ r.clause_categories ∧
          0 < ruleKeywordMatches clause r))
      = rules.filter (fun r =>
          decide (term.category ∈ r.term_categories ∧ clause.category ∈ r.clause_categories ∧
            0 < ruleKeywordMatches clause r)) := by
      rw [List.filter_filter]
      apply List.filter_congr
      intro r hr
      rw [Bool.and_comm, ← Bool.decide_and]
    rw [hff]
    exact max_eq_right (foldrMax_nonneg _)

theorem rmatch_bounds (term : ExtractedTerm) (clauses : List AnalyzedClause)
    (x : AnalyzedClause × MatchMethod × ℚ) (hx : x ∈ rmatch term clauses) :
    0 ≤ x.2.2 ∧ x.2.2 ≤ 1 := by
  unfold rmatch at hx
  rw [mem_sortDescBy] at hx
  rcases List.mem_filterMap.mp hx with ⟨c, _, hc⟩
  cases hmc : matchTermToClause term c with
  | none => rw [hmc] at hc; cases hc
  | some mc =>
    rw [hmc] at hc
    simp only [Option.map_some', Option.some.injEq] at hc
    subst hc
    exact matchTermToClause_bounds term c mc.1 mc.2 (by rw [hmc])

end RuleBasedMatcher

/-! ## Bounds of the semantic similarity -/

namespace SemanticMatcher

theorem dotProduct_nil (v : List ℚ) : dotProduct [] v = 0 := by
  simp [dotProduct]

theorem dotProduct_nil_right (v : List ℚ) : dotProduct v [] = 0 := by
  simp [dotProduct]

theorem dotProduct_cons (x y : ℚ) (v1 v2 : List ℚ) :
    dotProduct (x :: v1) (y :: v2) = x * y + dotProduct v1 v2 := by
  simp [dotProduct]

theorem sumSq_nil : sumSq [] = 0 := by simp [sumSq]

theorem sumSq_cons (x : ℚ) (v : List ℚ) : sumSq (x :: v) = x * x + sumSq v := by
  simp [sumSq]

theorem sumSq_nonneg (v : List ℚ) : 0 ≤ sumSq v := by
  induction v with
  | nil => simp [sumSq_nil]
  | cons x xs ih => rw [sumSq_cons]; nlinarith

theorem two_mul_dot_le (v1 : List ℚ) (a b : ℚ) : ∀ v2 : List ℚ,
    2 * a * b * dotProduct v1 v2 ≤ a ^ 2 * sumSq v2 + b ^ 2 * sumSq v1 := by
  induction v1 with
  | nil =>
    intro v2
    rw [dotProduct_nil, sumSq_nil]
    have := sumSq_nonneg v2
    nlinarith
  | cons x v1' ih =>
    intro v2
    cases v2 with
    | nil =>
      rw [dotProduct_nil_right, sumSq_nil]
      have := sumSq_nonneg (x :: v1')
      nlinarith
    | cons y v2' =>
      rw [dotProduct_cons, sumSq_cons, sumSq_cons]
      have h1 := ih v2'
      nlinarith [sq_nonneg (a * y - b * x)]

/-- Cauchy-Schwarz over rational lists (the zipped dot product against the
full squared norms; the inequality also holds for unequal lengths since
the extra squares are nonnegative). -/
theorem dotProduct_sq_le (v1 : List ℚ) : ∀ v2 : List ℚ,
    (dotProduct v1 v2) ^ 2 ≤ sumSq v1 * sumSq v2 := by
  induction v1 with
  | nil =>
    intro v2
    rw [dotProduct_nil, sumSq_nil]
    norm_num
  | cons x v1' ih =>
    intro v2
    cases v2 with
    | nil =>
      rw [dotProduct_nil_right, sumSq_nil]
      norm_num
    | cons y v2' =>
      rw [dotProduct_cons, sumSq_cons, sumSq_cons]
      have h1 := ih v2'
      have h2 := two_mul_dot_le v1' x y v2'
      have h3 := sumSq_nonneg v1'
      have h4 := sumSq_nonneg v2'
      nlinarith [sq_nonneg (x * y)]

/-- With a square root that never underestimates, the cosine similarity of
`_cosine_similarity` never exceeds 1. -/
theorem cosineSimilarity_le_one (sqrtFn : ℚ → ℚ) (hs : SqrtUpper sqrtFn)
    (v1 v2 : List ℚ) : cosineSimilarity sqrtFn v1 v2 ≤ 1 := by
  unfold cosineSimilarity
  split
  · norm_num
  dsimp only
  split
  · norm_num
  · rename_i hlen hnz
    push_neg at hnz
    have h1 := hs (sumSq v1) (sumSq_nonneg v1)
    have h2 := hs (sumSq v2) (sumSq_nonneg v2)
    have hp1 : 0 < sqrtFn (sumSq v1) := lt_of_le_of_ne h1.1 (Ne.symm hnz.1)
    have hp2 : 0 < sqrtFn (sumSq v2) := lt_of_le_of_ne h2.1 (Ne.symm hnz.2)
    have hprod : 0 < sqrtFn (sumSq v1) * sqrtFn (sumSq v2) := mul_pos hp1 hp2
    rw [div_le_one hprod]
    have hcs := dotProduct_sq_le v1 v2
    have hss : sumSq v1 * sumSq v2 ≤ (sqrtFn (sumSq v1)) ^ 2 * (sqrtFn (sumSq v2)) ^ 2 :=
      mul_le_mul h1.2 h2.2 (sumSq_nonneg v2) (sq_nonneg _)
    nlinarith [sq_nonneg (dotProduct v1 v2 + sqrtFn (sumSq v1) * sqrtFn (sumSq v2))]

theorem matchInMemory_bounds (m : SemanticMatcher) (term_embedding : List ℚ)
    (clauses : List AnalyzedClause) (max_results : Nat) (hs : SqrtUpper m.sqrtFn)
    (x : AnalyzedClause × MatchMethod × ℚ)
    (hx : x ∈ matchInMemory m term_embedding clauses max_results) :
    m.similarity_threshold ≤ x.2.2 ∧ x.2.2 ≤ 1 := by
  unfold matchInMemory at hx
  have hx2 := List.take_subset max_results _ hx
  rw [mem_sortDescBy] at hx2
  rcases List.mem_filterMap.mp hx2 with ⟨c, _, hc⟩
  revert hc
  cases hemb : c.semantic_embedding with
  | some e =>
    dsimp only
    split
    · rename_i hth
      intro hc
      cases hc
      exact ⟨hth, cosineSimilarity_le_one m.sqrtFn hs _ _⟩
    · intro hc; cases hc
  | none =>
    dsimp only
    cases hg : generateEmbedding m c.full_text with
    | none => intro hc; cases hc
    | some ce =>
      dsimp only [Option.map_some']
      split
      · rename_i hth
        intro hc
        cases hc
        exact ⟨hth, cosineSimilarity_le_one m.sqrtFn hs _ _⟩
      · intro hc; cases hc

theorem smatch_bounds (m : SemanticMatcher) (term : ExtractedTerm)
    (clauses : List AnalyzedClause) (max_results : Nat) (hs : SqrtUpper m.sqrtFn)
    (hdb : ∀ db, m.db_connection = some db → DbWithinBounds db)
    (x : AnalyzedClause × MatchMethod × ℚ)
    (hx : x ∈ smatch m term clauses max_results) :
    m.similarity_threshold ≤ x.2.2 ∧ x.2.2 ≤ 1 := by
  unfold smatch at hx
  split at hx
  · cases hx
  revert hx
  cases hg : generateEmbedding m term.raw_text with
  | none => intro hx; cases hx
  | some emb =>
    dsimp only
    split
    · rename_i hdbsome
      unfold matchWithPgvector
      cases hdbc : m.db_connection with
      | none => intro hx; cases hx
      | some db =>
        dsimp only
        cases hq : db emb m.similarity_threshold max_results with
        | none =>
          intro hx
          exact matchInMemory_bounds m emb clauses max_results hs x hx
        | some rows =>
          dsimp only
          intro hx
          rcases List.mem_filterMap.mp hx with ⟨p, hp, hpx⟩
          cases hlu : lookupLastClause clauses p.1 with
          | none => rw [hlu] at hpx; cases hpx
          | some c =>
            rw [hlu] at hpx
            simp only [Option.map_some', Option.some.injEq] at hpx
            subst hpx
            exact hdb db hdbc emb m.similarity_threshold max_results rows hq p hp
    · intro hx
      exact matchInMemory_bounds m emb clauses max_results hs x hx

end SemanticMatcher

/-! ## Lemmas about the engine's state threading -/

namespace AlignmentEngine

theorem createMatch_fst (e : AlignmentEngine) (t : ExtractedTerm) (c : AnalyzedClause)
    (mm : MatchMethod) (q : ℚ) :
    (createMatch e t c mm q).1 = { e with match_counter := e.match_counter + 1 } := rfl

theorem createMatch_ts_term_id (e : AlignmentEngine) (t : ExtractedTerm) (c : AnalyzedClause)
    (mm : MatchMethod) (q : ℚ) : (createMatch e t c mm q).2.ts_term_id = t.id := rfl

theorem createMatch_clause_id (e : AlignmentEngine) (t : ExtractedTerm) (c : AnalyzedClause)
    (mm : MatchMethod) (q : ℚ) : (createMatch e t c mm q).2.clause_id = c.id := rfl

theorem createMatch_confidence (e : AlignmentEngine) (t : ExtractedTerm) (c : AnalyzedClause)
    (mm : MatchMethod) (q : ℚ) : (createMatch e t c mm q).2.confidence = q := rfl

/-- The boolean placeholder test of `_classify_action` decides exactly the
specification-level placeholder property. -/
theorem isPlaceholder_iff (s : String) : isPlaceholder s = true ↔ placeholderSpec s := by
  unfold isPlaceholder placeholderSpec underscoresPat bracketedPat xxPat yyyyPat pyStartsWith
  simp only [Bool.or_eq_true, Bool.and_eq_true, decide_eq_true_eq, List.all_eq_true]
  tauto

theorem foldl_ruleStep_fst (t : ExtractedTerm) (l : List (AnalyzedClause × MatchMethod × ℚ)) :
    ∀ acc : AlignmentEngine × List AlignmentMatch,
    ∃ n, (l.foldl (ruleStep t) acc).1 = { acc.1 with match_counter := n } := by
  induction l with
  | nil => intro acc; exact ⟨acc.1.match_counter, rfl⟩
  | cons x xs ih =>
    intro acc
    obtain ⟨n, hn⟩ := ih (ruleStep t acc x)
    exact ⟨n, hn⟩

theorem foldl_semStep_fst (t : ExtractedTerm) (l : List (AnalyzedClause × MatchMethod × ℚ)) :
    ∀ acc : AlignmentEngine × List AlignmentMatch,
    ∃ n, (l.foldl (semStep t) acc).1 = { acc.1 with match_counter := n } := by
  induction l with
  | nil => intro acc; exact ⟨acc.1.match_counter, rfl⟩
  | cons x xs ih =>
    intro acc
    obtain ⟨n, hn⟩ := ih (semStep t acc x)
    refine ⟨n, ?_⟩
    rw [List.foldl_cons, hn]
    unfold semStep
    split
    · rfl
    · rfl

theorem alignTermI_fst (e : AlignmentEngine) (t : ExtractedTerm) (cl : List AnalyzedClause) :
    ∃ n, (alignTermI e t cl).1 = { e with match_counter := n } := by
  unfold alignTermI
  dsimp only
  split
  · obtain ⟨n1, h1⟩ := foldl_ruleStep_fst t (RuleBasedMatcher.rmatch t cl) (e, [])
    obtain ⟨n2, h2⟩ := foldl_semStep_fst t
      (SemanticMatcher.smatch e.semantic_matcher t cl 5)
      ((RuleBasedMatcher.rmatch t cl).foldl (ruleStep t) (e, []))
    rw [h2, h1]
    exact ⟨n2, rfl⟩
  · obtain ⟨n1, h1⟩ := foldl_ruleStep_fst t (RuleBasedMatcher.rmatch t cl) (e, [])
    rw [h1]
    exact ⟨n1, rfl⟩

theorem processTerms_fst (cl : List AnalyzedClause) (terms : List ExtractedTerm) :
    ∀ e : AlignmentEngine, ∃ n, (processTerms e cl terms).1 = { e with match_counter := n } := by
  induction terms with
  | nil => intro e; exact ⟨e.match_counter, rfl⟩
  | cons t ts ih =>
    intro e
    obtain ⟨n1, h1⟩ := alignTermI_fst e t cl
    obtain ⟨n2, h2⟩ := ih (alignTermI e t cl).1
    refine ⟨n2, ?_⟩
    unfold processTerms
    cases hm : (alignTermI e t cl).2.1 with
    | nil =>
      dsimp only
      rw [hm]
      dsimp only
      rw [h2, h1]
    | cons b bs =>
      dsimp only
      rw [hm]
      dsimp only
      rw [h2, h1]

theorem foldl_ruleStep_len (t : ExtractedTerm) (l : List (AnalyzedClause × MatchMethod × ℚ)) :
    ∀ acc : AlignmentEngine × List AlignmentMatch,
    ((l.foldl (ruleStep t) acc).2).length = acc.2.length + l.length := by
  induction l with
  | nil => intro acc; simp
  | cons x xs ih =>
    intro acc
    rw [List.foldl_cons, ih]
    simp [ruleStep]
    omega

theorem foldl_semStep_nil_iff (t : ExtractedTerm)
    (l : List (AnalyzedClause × MatchMethod × ℚ)) :
    ∀ acc : AlignmentEngine × List AlignmentMatch,
    ((l.foldl (semStep t) acc).2 = []) ↔ (acc.2 = [] ∧ l = []) := by
  induction l with
  | nil => intro acc; simp
  | cons x xs ih =>
    intro acc
    rw [List.foldl_cons, ih]
    constructor
    · rintro ⟨hs, -⟩
      exfalso
      unfold semStep at hs
      revert hs
      split
      · rename_i hg
        intro hs
        rw [hs] at hg
        simp at hg
      · intro hs
        simp at hs
    · rintro ⟨-, h⟩
      cases h

/-- A term's `_align_term` result is empty exactly when neither matcher
returned any candidate. -/
theorem alignTermI_nil_iff (e : AlignmentEngine) (t : ExtractedTerm)
    (cl : List AnalyzedClause) :
    (alignTermI e t cl).2.1 = [] ↔ hasNoCandidates e cl t := by
  unfold alignTermI hasNoCandidates
  dsimp only
  rw [sortDescBy_eq_nil_iff]
  have hlen := foldl_ruleStep_len t (RuleBasedMatcher.rmatch t cl) (e, [])
  split
  · rw [foldl_semStep_nil_iff]
    constructor
    · rintro ⟨h1, h2⟩
      have hz : (RuleBasedMatcher.rmatch t cl).length = 0 := by
        rw [h1] at hlen
        simpa using hlen.symm
      exact ⟨List.length_eq_zero.mp hz, h2⟩
    · rintro ⟨h1, h2⟩
      refine ⟨?_, h2⟩
      rw [h1]
      rfl
  · rename_i hflag
    constructor
    · intro h1
      exfalso
      rw [h1] at hflag
      exact hflag rfl
    · rintro ⟨h1, -⟩
      rw [h1]
      rfl

theorem foldl_ruleStep_prop (t : ExtractedTerm) (P : AlignmentMatch → Prop)
    (l : List (AnalyzedClause × MatchMethod × ℚ))
    (hP : ∀ (e' : AlignmentEngine) x, x ∈ l → P (createMatch e' t x.1 x.2.1 x.2.2).2) :
    ∀ acc : AlignmentEngine × List AlignmentMatch, (∀ m ∈ acc.2, P m) →
    ∀ m ∈ (l.foldl (ruleStep t) acc).2, P m := by
  induction l with
  | nil => intro acc hacc m hm; exact hacc m hm
  | cons x xs ih =>
    intro acc hacc m hm
    rw [List.foldl_cons] at hm
    refine ih (fun e' y hy => hP e' y (List.mem_cons_of_mem x hy)) (ruleStep t acc x) ?_ m hm
    intro m' hm'
    unfold ruleStep at hm'
    rw [List.mem_append] at hm'
    cases hm' with
    | inl h => exact hacc m' h
    | inr h =>
      rw [List.mem_singleton] at h
      subst h
      exact hP acc.1 x (List.mem_cons_self x xs)

theorem foldl_semStep_prop (t : ExtractedTerm) (P : AlignmentMatch → Prop)
    (l : List (AnalyzedClause × MatchMethod × ℚ))
    (hP : ∀ (e' : AlignmentEngine) x, x ∈ l → P (createMatch e' t x.1 x.2.1 x.2.2).2) :
    ∀ acc : AlignmentEngine × List AlignmentMatch, (∀ m ∈ acc.2, P m) →
    ∀ m ∈ (l.foldl (semStep t) acc).2, P m := by
  induction l with
  | nil => intro acc hacc m hm; exact hacc m hm
  | cons x xs ih =>
    intro acc hacc m hm
    rw [List.foldl_cons] at hm
    refine ih (fun e' y hy => hP e' y (List.mem_cons_of_mem x hy)) (semStep t acc x) ?_ m hm
    intro m' hm'
    unfold semStep at hm'
    revert hm'
    split
    · intro hm'; exact hacc m' hm'
    · intro hm'
      rw [List.mem_append] at hm'
      cases hm' with
      | inl h => exact hacc m' h
      | inr h =>
        rw [List.mem_singleton] at h
        subst h
        exact hP acc.1 x (List.mem_cons_self x xs)

/-- Every match produced by `_align_term` satisfies any property enjoyed
by all matches creatable from the rule and semantic candidate lists. -/
theorem alignTermI_prop (e : AlignmentEngine) (t : ExtractedTerm)
    (cl : List AnalyzedClause) (P : AlignmentMatch → Prop)
    (hrule : ∀ (e' : AlignmentEngine) x, x ∈ RuleBasedMatcher.rmatch t cl →
      P (createMatch e' t x.1 x.2.1 x.2.2).2)
    (hsem : ∀ (e' : AlignmentEngine) x, x ∈ SemanticMatcher.smatch e.semantic_matcher t cl 5 →
      P (createMatch e' t x.1 x.2.1 x.2.2).2) :
    ∀ m ∈ (alignTermI e t cl).2.1, P m := by
  intro m hm
  unfold alignTermI at hm
  dsimp only at hm
  rw [mem_sortDescBy] at hm
  revert hm
  split
  · intro hm
    exact foldl_semStep_prop t P _ hsem _
      (foldl_ruleStep_prop t P _ hrule (e, []) (by intro m' h; cases h)) m hm
  · intro hm
    exact foldl_ruleStep_prop t P _ hrule (e, []) (by intro m' h; cases h) m hm

theorem alignTermI_ts_term_id (e : AlignmentEngine) (t : ExtractedTerm)
    (cl : List AnalyzedClause) :
    ∀ m ∈ (alignTermI e t cl).2.1, m.ts_term_id = t.id := by
  exact alignTermI_prop e t cl (fun m => m.ts_term_id = t.id)
    (fun e' x _ => rfl) (fun e' x _ => rfl)

theorem unmatchedSourceTerms_counter (e : AlignmentEngine) (n : ℕ) (cl : List AnalyzedClause)
    (terms : List ExtractedTerm) :
    unmatchedSourceTerms { e with match_counter := n } cl terms
      = unmatchedSourceTerms e cl terms := rfl

theorem processTerms_matches_src (cl : List AnalyzedClause) (terms : List ExtractedTerm) :
    ∀ e : AlignmentEngine, ∀ m ∈ (processTerms e cl terms).2.1,
    ∃ t ∈ terms, m.ts_term_id = t.id ∧ ¬ hasNoCandidates e cl t := by
  induction terms with
  | nil => intro e m hm; cases hm
  | cons t ts ih =>
    intro e m hm
    obtain ⟨n1, h1⟩ := alignTermI_fst e t cl
    unfold processTerms at hm
    dsimp only at hm
    revert hm
    cases hmt : (alignTermI e t cl).2.1 with
    | nil =>
      dsimp only
      intro hm
      obtain ⟨t', ht', htid, hnc⟩ := ih (alignTermI e t cl).1 m hm
      rw [h1] at hnc
      exact ⟨t', List.mem_cons_of_mem t ht', htid, hnc⟩
    | cons b bs =>
      dsimp only
      intro hm
      rw [List.mem_cons] at hm
      cases hm with
      | inl hb =>
        subst hb
        refine ⟨t, List.mem_cons_self t ts, ?_, ?_⟩
        · exact alignTermI_ts_term_id e t cl m (by rw [hmt]; exact List.mem_cons_self _ _)
        · intro hnc
          rw [← alignTermI_nil_iff] at hnc
          rw [hmt] at hnc
          cases hnc
      | inr hrest =>
        obtain ⟨t', ht', htid, hnc⟩ := ih (alignTermI e t cl).1 m hrest
        rw [h1] at hnc
        exact ⟨t', List.mem_cons_of_mem t ht', htid, hnc⟩

theorem processTerms_matches_complete (cl : List AnalyzedClause) (terms : List ExtractedTerm) :
    ∀ e : AlignmentEngine, ∀ t ∈ terms, ¬ hasNoCandidates e cl t →
    ∃ m ∈ (processTerms e cl terms).2.1, m.ts_term_id = t.id := by
  induction terms with
  | nil => intro e t ht; cases ht
  | cons t' ts ih =>
    intro e t ht hnc
    obtain ⟨n1, h1⟩ := alignTermI_fst e t' cl
    rw [List.mem_cons] at ht
    unfold processTerms
    dsimp only
    cases ht with
    | inl heq =>
      subst heq
      revert hnc
      cases hmt : (alignTermI e t cl).2.1 with
      | nil =>
        intro hnc
        exact absurd ((alignTermI_nil_iff e t cl).mp hmt) hnc
      | cons b bs =>
        intro hnc
        dsimp only
        refine ⟨b, List.mem_cons_self _ _, ?_⟩
        exact alignTermI_ts_term_id e t cl b (by rw [hmt]; exact List.mem_cons_self _ _)
    | inr hts =>
      have hnc' : ¬ hasNoCandidates (alignTermI e t' cl).1 cl t := by
        rw [h1]; exact hnc
      obtain ⟨m, hmm, htid⟩ := ih (alignTermI e t' cl).1 t hts hnc'
      cases hmt : (alignTermI e t' cl).2.1 with
      | nil =>
        dsimp only
        exact ⟨m, hmm, htid⟩
      | cons b bs =>
        dsimp only
        exact ⟨m, List.mem_cons_of_mem b hmm, htid⟩

theorem processTerms_unmatched_eq (cl : List AnalyzedClause) (terms : List ExtractedTerm) :
    ∀ e : AlignmentEngine,
    (processTerms e cl terms).2.2
      = (unmatchedSourceTerms e cl terms).map createUnmatchedTermEntry := by
  induction terms with
  | nil => intro e; rfl
  | cons t ts ih =>
    intro e
    obtain ⟨n1, h1⟩ := alignTermI_fst e t cl
    have hrec : (processTerms (alignTermI e t cl).1 cl ts).2.2
        = (unmatchedSourceTerms e cl ts).map createUnmatchedTermEntry := by
      rw [ih (alignTermI e t cl).1, h1, unmatchedSourceTerms_counter]
    unfold processTerms unmatchedSourceTerms
    dsimp only
    cases hmt : (alignTermI e t cl).2.1 with
    | nil =>
      rw [List.filter_cons]
      have hd : decide (hasNoCandidates e cl t) = true :=
        decide_eq_true ((alignTermI_nil_iff e t cl).mp hmt)
      rw [hd]
      simp only [if_true, List.map_cons]
      rw [hrec]
      rfl
    | cons b bs =>
      rw [List.filter_cons]
      have hd : decide (hasNoCandidates e cl t) = false := by
        apply decide_eq_false
        intro hnc
        rw [← alignTermI_nil_iff] at hnc
        rw [hmt] at hnc
        cases hnc
      rw [hd]
      rw [hrec]
      rfl

set_option maxHeartbeats 1000000 in
theorem applyConfig_fields (e : AlignmentEngine) (cfg : AlignConfig) (e1 : AlignmentEngine)
    (h : applyConfig e cfg = .ok e1) :
    e1.match_counter = e.match_counter ∧
    e1.confidence_threshold = (match cfg.confidence_threshold with
      | some t => t | none => e.confidence_threshold) ∧
    e1.semantic_matcher.similarity_threshold = (match cfg.semantic_threshold with
      | some t => t | none => e.semantic_matcher.similarity_threshold) ∧
    e1.semantic_matcher.embedding_model = e.semantic_matcher.embedding_model ∧
    e1.semantic_matcher.db_connection = e.semantic_matcher.db_connection ∧
    e1.semantic_matcher.sqrtFn = e.semantic_matcher.sqrtFn ∧
    e1.action_policies = (match cfg.action_policies_by_category with
      | some ps => ps | none => e.action_policies) ∧
    e1.review_thresholds_by_category = (match cfg.review_thresholds_by_category with
      | some ts => ts | none => e.review_thresholds_by_category) ∧
    (∀ q, cfg.confidence_threshold = some q → 0 ≤ q ∧ q ≤ 1) ∧
    (∀ q, cfg.semantic_threshold = some q → 0 ≤ q ∧ q ≤ 1) := by
  obtain ⟨oct, ost, oap, ort⟩ := cfg
  cases oct <;> cases ost <;> cases oap <;> cases ort <;>
    simp only [applyConfig, set_confidence_threshold,
      SemanticMatcher.set_similarity_threshold, Except.map] at h <;>
    (try split_ifs at h) <;>
    (try cases h) <;>
    simp_all

set_option maxHeartbeats 1000000 in
theorem applyConfig_ok_of_valid (e : AlignmentEngine) (cfg : AlignConfig)
    (h1 : ∀ q, cfg.confidence_threshold = some q → 0 ≤ q ∧ q ≤ 1)
    (h2 : ∀ q, cfg.semantic_threshold = some q → 0 ≤ q ∧ q ≤ 1) :
    ∃ e', applyConfig e cfg = .ok e' := by
  obtain ⟨oct, ost, oap, ort⟩ := cfg
  cases oct <;> cases ost <;> cases oap <;> cases ort <;>
    simp only [applyConfig, set_confidence_threshold,
      SemanticMatcher.set_similarity_threshold, Except.map] <;>
    (try split_ifs) <;>
    simp_all

/-- Applying the same configuration twice is idempotent: the second
application succeeds and changes nothing. -/
theorem applyConfig_idem (e : AlignmentEngine) (cfg : AlignConfig) (e1 : AlignmentEngine)
    (h : applyConfig e cfg = .ok e1) : applyConfig e1 cfg = .ok e1 := by
  obtain ⟨hc, hct, hst, hem, hdb, hsq, hap, hrt, hvc, hvs⟩ := applyConfig_fields e cfg e1 h
  obtain ⟨e2, h2⟩ := applyConfig_ok_of_valid e1 cfg hvc hvs
  obtain ⟨hc2, hct2, hst2, hem2, hdb2, hsq2, hap2, hrt2, -, -⟩ :=
    applyConfig_fields e1 cfg e2 h2
  have he : e2 = e1 := by
    have hsem : e2.semantic_matcher = e1.semantic_matcher := by
      apply SemanticMatcher.ext
      · rw [hem2]
      · cases hs : cfg.semantic_threshold <;> rw [hs] at hst hst2 <;> simp_all
      · rw [hdb2]
      · rw [hsq2]
    apply AlignmentEngine.ext
    · exact hsem
    · cases hs : cfg.confidence_threshold <;> rw [hs] at hct hct2 <;> simp_all
    · rw [hc2]
    · cases hs : cfg.action_policies_by_category <;> rw [hs] at hap hap2 <;> simp_all
    · cases hs : cfg.review_thresholds_by_category <;> rw [hs] at hrt hrt2 <;> simp_all
  rw [he] at h2
  exact h2

theorem foldl_ruleStep_confidences (t : ExtractedTerm)
    (l : List (AnalyzedClause × MatchMethod × ℚ)) :
    ∀ acc : AlignmentEngine × List AlignmentMatch,
    ((l.foldl (ruleStep t) acc).2).map (fun m => m.confidence)
      = acc.2.map (fun m => m.confidence) ++ l.map (fun x => x.2.2) := by
  induction l with
  | nil => intro acc; simp
  | cons x xs ih =>
    intro acc
    rw [List.foldl_cons, ih]
    simp [ruleStep, createMatch_confidence]

/-- The semantic-invocation flag of `_align_term` is decided entirely by
the rule matcher's candidate list and the global confidence threshold:
true exactly when the list is empty or its best confidence is below the
threshold. -/
theorem alignTermI_flag (e : AlignmentEngine) (t : ExtractedTerm)
    (cl : List AnalyzedClause) :
    (alignTermI e t cl).2.2 = (match RuleBasedMatcher.rmatch t cl with
      | [] => true
      | m0 :: _ => decide (m0.2.2 < e.confidence_threshold)) := by
  unfold alignTermI
  dsimp only
  cases hrm : RuleBasedMatcher.rmatch t cl with
  | nil => rfl
  | cons m0 ms =>
    cases hstep : (List.foldl (ruleStep t) (e, []) (m0 :: ms)).2 with
    | nil =>
      exfalso
      have hl := foldl_ruleStep_len t (m0 :: ms) (e, [])
      rw [hstep] at hl
      simp at hl
    | cons b bs =>
      have hconf := foldl_ruleStep_confidences t (m0 :: ms) (e, [])
      rw [hstep] at hconf
      simp only [List.map_cons, List.map_nil, List.nil_append, List.cons.injEq] at hconf
      dsimp only
      rw [hconf.1]

/-- Rule-based candidates never carry the SEMANTIC method tag. -/
theorem rmatch_not_semantic (t : ExtractedTerm) (cl : List AnalyzedClause)
    (x : AnalyzedClause × MatchMethod × ℚ) (hx : x ∈ RuleBasedMatcher.rmatch t cl) :
    x.2.1 ≠ MatchMethod.SEMANTIC := by
  unfold RuleBasedMatcher.rmatch at hx
  rw [mem_sortDescBy] at hx
  rcases List.mem_filterMap.mp hx with ⟨c, -, hc⟩
  revert hc
  cases hmc : RuleBasedMatcher.matchTermToClause t c with
  | none => intro hc; cases hc
  | some mc =>
    intro hc
    simp only [Option.map_some', Option.some.injEq] at hc
    subst hc
    unfold RuleBasedMatcher.matchTermToClause RuleBasedMatcher.matchTermToClauseSteps at hmc
    dsimp only at hmc
    split at hmc
    · simp only [Option.some.injEq] at hmc
      rw [← hmc]
      intro hcon
      cases hcon
    split at hmc
    · simp only [Option.some.injEq] at hmc
      rw [← hmc]
      intro hcon
      cases hcon
    split at hmc
    · simp only [Option.some.injEq] at hmc
      rw [← hmc]
      intro hcon
      cases hcon
    split at hmc
    · simp only [Option.some.injEq] at hmc
      rw [← hmc]
      intro hcon
      cases hcon
    · simp at hmc

theorem alignTermI_conf_bounds (e : AlignmentEngine) (t : ExtractedTerm)
    (cl : List AnalyzedClause) (hs : SqrtUpper e.semantic_matcher.sqrtFn)
    (hdb : ∀ db, e.semantic_matcher.db_connection = some db → DbWithinBounds db)
    (hth : 0 ≤ e.semantic_matcher.similarity_threshold) :
    ∀ m ∈ (alignTermI e t cl).2.1, 0 ≤ m.confidence ∧ m.confidence ≤ 1 := by
  apply alignTermI_prop
  · intro e' x hx
    rw [createMatch_confidence]
    exact RuleBasedMatcher.rmatch_bounds t cl x hx
  · intro e' x hx
    rw [createMatch_confidence]
    have hb := SemanticMatcher.smatch_bounds e.semantic_matcher t cl 5 hs hdb x hx
    exact ⟨le_trans hth hb.1, hb.2⟩

theorem processTerms_conf_bounds (cl : List AnalyzedClause) (terms : List ExtractedTerm) :
    ∀ e : AlignmentEngine, SqrtUpper e.semantic_matcher.sqrtFn →
    (∀ db, e.semantic_matcher.db_connection = some db → DbWithinBounds db) →
    0 ≤ e.semantic_matcher.similarity_threshold →
    ∀ m ∈ (processTerms e cl terms).2.1, 0 ≤ m.confidence ∧ m.confidence ≤ 1 := by
  induction terms with
  | nil => intro e _ _ _ m hm; cases hm
  | cons t ts ih =>
    intro e hs hdb hth m hm
    obtain ⟨n1, h1⟩ := alignTermI_fst e t cl
    have hs' : SqrtUpper ((alignTermI e t cl).1).semantic_matcher.sqrtFn := by
      rw [h1]; exact hs
    have hdb' : ∀ db, ((alignTermI e t cl).1).semantic_matcher.db_connection = some db →
        DbWithinBounds db := by
      rw [h1]; exact hdb
    have hth' : 0 ≤ ((alignTermI e t cl).1).semantic_matcher.similarity_threshold := by
      rw [h1]; exact hth
    unfold processTerms at hm
    dsimp only at hm
    revert hm
    cases hmt : (alignTermI e t cl).2.1 with
    | nil =>
      dsimp only
      intro hm
      exact ih (alignTermI e t cl).1 hs' hdb' hth' m hm
    | cons b bs =>
      dsimp only
      intro hm
      rw [List.mem_cons] at hm
      cases hm with
      | inl hb =>
        subst hb
        exact alignTermI_conf_bounds e t cl hs hdb hth m
          (by rw [hmt]; exact List.mem_cons_self _ _)
      | inr hrest =>
        exact ih (alignTermI e t cl).1 hs' hdb' hth' m hrest

/-- Structure of a successful `align` run: the post-configuration engine
`e1` determines every part of the result. -/
theorem align_ok_elim (e : AlignmentEngine) (ts : TSExtractionResult)
    (tpl : TemplateAnalysisResult) (cfg : Option AlignConfig) (now : String)
    (e' : AlignmentEngine) (r : AlignmentResult)
    (h : align e ts tpl cfg now = .ok (e', r)) :
    ∃ e1, (match cfg with
           | some c => applyConfig { e with match_counter := 0 } c
           | none => .ok { e with match_counter := 0 }) = .ok e1 ∧
      e' = (processTerms e1 tpl.clauses ts.terms).1 ∧
      r.«matches» = (processTerms e1 tpl.clauses ts.terms).2.1 ∧
      r.unmatched_terms = (processTerms e1 tpl.clauses ts.terms).2.2 ∧
      r.unmatched_clauses = (tpl.clauses.filter (fun c => decide (c.id ∉
        (processTerms e1 tpl.clauses ts.terms).2.1.map (fun m => m.clause_id)))).map
          (fun c => c.id) ∧
      r.alignment_timestamp = now := by
  unfold align at h
  cases cfg with
  | none =>
    dsimp only at h
    cases h
    exact ⟨{ e with match_counter := 0 }, rfl, rfl, rfl, rfl, rfl, rfl⟩
  | some c =>
    dsimp only at h
    revert h
    cases hac : applyConfig { e with match_counter := 0 } c with
    | error msg => intro h; cases h
    | ok e1 =>
      intro h
      dsimp only at h
      cases h
      exact ⟨e1, hac, rfl, rfl, rfl, rfl, rfl⟩

end AlignmentEngine

/-! ## Claims -/

open AlignmentEngine RuleBasedMatcher in
/-- C1 (counterexample): with two input terms sharing the id `"t1"` — one
matched by title, the other matched by nothing — the result contains both
a match with `ts_term_id = "t1"` and an unmatched-term entry mentioning
`"t1"`, so "never both" fails as stated. -/
theorem claim_C1_counterexample :
    ((align engW tsX tplW none "T").toOption.map (fun p =>
      p.2.«matches».any (fun m => m.ts_term_id = "t1") &&
      p.2.unmatched_terms.any (fun s => containsSub s "(ID: t1,"))) = some true := by
  with_unfolding_all rfl

open AlignmentEngine in
/-- C1 (amended): provided the input terms' ids are pairwise distinct,
every term either appears as `ts_term_id` of some match or is one of the
no-candidate terms whose synthesized entry sits in `unmatched_terms` —
never both, never neither. -/
theorem claim_C1_term_partition (e : AlignmentEngine) (ts : TSExtractionResult)
    (tpl : TemplateAnalysisResult) (cfg : Option AlignConfig) (now : String)
    (e' : AlignmentEngine) (r : AlignmentResult)
    (hok : align e ts tpl cfg now = .ok (e', r))
    (hids : (ts.terms.map (fun t => t.id)).Nodup) :
    ∀ t ∈ ts.terms,
      Xor' (∃ m ∈ r.«matches», m.ts_term_id = t.id)
        (∃ t' ∈ unmatchedSourceTerms e' tpl.clauses ts.terms,
          t'.id = t.id ∧ createUnmatchedTermEntry t' ∈ r.unmatched_terms) := by
  obtain ⟨e1, -, he', hm, hu, -, -⟩ := align_ok_elim e ts tpl cfg now e' r hok
  obtain ⟨n, hn⟩ := processTerms_fst tpl.clauses ts.terms e1
  have hust : unmatchedSourceTerms e' tpl.clauses ts.terms
      = unmatchedSourceTerms e1 tpl.clauses ts.terms := by
    rw [he', hn, unmatchedSourceTerms_counter]
  have huents : r.unmatched_terms
      = (unmatchedSourceTerms e1 tpl.clauses ts.terms).map createUnmatchedTermEntry := by
    rw [hu, processTerms_unmatched_eq]
  intro t ht
  by_cases hnc : hasNoCandidates e1 tpl.clauses t
  · right
    constructor
    · refine ⟨t, ?_, rfl, ?_⟩
      · rw [hust]
        exact List.mem_filter.mpr ⟨ht, decide_eq_true hnc⟩
      · rw [huents]
        apply List.mem_map.mpr
        exact ⟨t, List.mem_filter.mpr ⟨ht, decide_eq_true hnc⟩, rfl⟩
    · rintro ⟨m, hmm, hmt⟩
      rw [hm] at hmm
      obtain ⟨t2, ht2, htid2, hnc2⟩ := processTerms_matches_src tpl.clauses ts.terms e1 m hmm
      have ht2t : t2 = t := List.inj_on_of_nodup_map hids ht2 ht (by rw [← htid2, hmt])
      subst ht2t
      exact hnc2 hnc
  · left
    constructor
    · obtain ⟨m, hmm, hmt⟩ := processTerms_matches_complete tpl.clauses ts.terms e1 t ht hnc
      rw [hm]
      exact ⟨m, hmm, hmt⟩
    · rintro ⟨t', ht', htid', -⟩
      rw [hust] at ht'
      rcases List.mem_filter.mp ht' with ⟨ht'mem, hdec⟩
      rw [decide_eq_true_eq] at hdec
      have ht't : t' = t := List.inj_on_of_nodup_map hids ht'mem ht htid'
      subst ht't
      exact hnc hdec

open AlignmentEngine in
/-- C1 (witness): on the concrete run, the matched term `termWA` falls in
exactly one side of the partition. -/
theorem claim_C1_witness :
    Xor' (∃ m ∈ pW.2.«matches», m.ts_term_id = termWA.id)
      (∃ t' ∈ unmatchedSourceTerms pW.1 tplW.clauses tsW.terms,
        t'.id = termWA.id ∧ createUnmatchedTermEntry t' ∈ pW.2.unmatched_terms) :=
  claim_C1_term_partition engW tsW tplW none "T" pW.1 pW.2 rfl (by decide)
    termWA (by decide)

open AlignmentEngine in
/-- C2 (confirmed): every match confidence of a successful `align` run
lies in `[0, 1]`, given that the square-root routine standing in for the
floating-point `** 0.5` never underestimates, that the pgvector backend
honours its SQL contract, and that the initial semantic similarity
threshold is nonnegative (0.6 at construction, validated by every
setter). -/
theorem claim_C2_confidence_bounds (e : AlignmentEngine) (ts : TSExtractionResult)
    (tpl : TemplateAnalysisResult) (cfg : Option AlignConfig) (now : String)
    (e' : AlignmentEngine) (r : AlignmentResult)
    (hok : align e ts tpl cfg now = .ok (e', r))
    (hs : SqrtUpper e.semantic_matcher.sqrtFn)
    (hdb : ∀ db, e.semantic_matcher.db_connection = some db → DbWithinBounds db)
    (hth : 0 ≤ e.semantic_matcher.similarity_threshold) :
    ∀ m ∈ r.«matches», 0 ≤ m.confidence ∧ m.confidence ≤ 1 := by
  obtain ⟨e1, hcfg, -, hm, -, -, -⟩ := align_ok_elim e ts tpl cfg now e' r hok
  have h1 : SqrtUpper e1.semantic_matcher.sqrtFn ∧
      (∀ db, e1.semantic_matcher.db_connection = some db → DbWithinBounds db) ∧
      0 ≤ e1.semantic_matcher.similarity_threshold := by
    cases cfg with
    | none =>
      dsimp only at hcfg
      cases hcfg
      exact ⟨hs, hdb, hth⟩
    | some c =>
      dsimp only at hcfg
      obtain ⟨-, -, hst, -, hdbp, hsq, -, -, -, hvs⟩ :=
        applyConfig_fields { e with match_counter := 0 } c e1 hcfg
      refine ⟨?_, ?_, ?_⟩
      · rw [hsq]; exact hs
      · rw [hdbp]; exact hdb
      · cases hcs : c.semantic_threshold with
        | none => rw [hcs] at hst; dsimp only at hst; rw [hst]; exact hth
        | some tq =>
          rw [hcs] at hst
          dsimp only at hst
          rw [hst]
          exact (hvs tq hcs).1
  rw [hm]
  exact processTerms_conf_bounds tpl.clauses ts.terms e1 h1.1 h1.2.1 h1.2.2

open AlignmentEngine in
/-- C2 (witness): the match of the concrete run has confidence in
`[0, 1]`. -/
theorem claim_C2_witness : 0 ≤ mW.confidence ∧ mW.confidence ≤ 1 :=
  claim_C2_confidence_bounds engW tsW tplW none "T" pW.1 pW.2 rfl
    (by
      intro q hq
      constructor
      · show (0 : ℚ) ≤ q + 1
        nlinarith
      · show q ≤ (q + 1) ^ 2
        nlinarith)
    (fun db h => Option.noConfusion h)
    (of_decide_eq_true (by with_unfolding_all rfl))
    mW (of_decide_eq_true (by with_unfolding_all rfl))

open AlignmentEngine in
/-- C3 (confirmed): a clause id is the `clause_id` of some match exactly
when it is absent from `unmatched_clauses`. -/
theorem claim_C3_clause_partition (e : AlignmentEngine) (ts : TSExtractionResult)
    (tpl : TemplateAnalysisResult) (cfg : Option AlignConfig) (now : String)
    (e' : AlignmentEngine) (r : AlignmentResult)
    (hok : align e ts tpl cfg now = .ok (e', r)) :
    ∀ c ∈ tpl.clauses,
      (∃ m ∈ r.«matches», m.clause_id = c.id) ↔ c.id ∉ r.unmatched_clauses := by
  obtain ⟨e1, -, -, hm, -, hu, -⟩ := align_ok_elim e ts tpl cfg now e' r hok
  intro c hc
  set ids := (processTerms e1 tpl.clauses ts.terms).2.1.map (fun m => m.clause_id) with hids
  have hmem : (∃ m ∈ r.«matches», m.clause_id = c.id) ↔ c.id ∈ ids := by
    rw [hm, hids]
    constructor
    · rintro ⟨m, hmm, hmc⟩
      exact List.mem_map.mpr ⟨m, hmm, hmc⟩
    · intro h
      rcases List.mem_map.mp h with ⟨m, hmm, hmc⟩
      exact ⟨m, hmm, hmc⟩
  have hunm : c.id ∈ r.unmatched_clauses ↔ c.id ∉ ids := by
    rw [hu]
    constructor
    · intro h
      rcases List.mem_map.mp h with ⟨c2, hc2, hcid⟩
      rcases List.mem_filter.mp hc2 with ⟨-, hdec⟩
      rw [decide_eq_true_eq] at hdec
      rw [← hcid]
      exact hdec
    · intro h
      apply List.mem_map.mpr
      refine ⟨c, ?_, rfl⟩
      apply List.mem_filter.mpr
      exact ⟨hc, decide_eq_true h⟩
  rw [hmem, hunm]
  tauto

open AlignmentEngine in
/-- C3 (witness): on the concrete run, clause `c1` is matched exactly as
it is absent from the unmatched-clause list. -/
theorem claim_C3_witness :
    (∃ m ∈ pW.2.«matches», m.clause_id = clauseWA.id)
      ↔ clauseWA.id ∉ pW.2.unmatched_clauses :=
  claim_C3_clause_partition engW tsW tplW none "T" pW.1 pW.2 rfl clauseWA (by decide)

open AlignmentEngine RuleBasedMatcher in
/-- C4 (counterexample): with a per-category review threshold of 0.9 for
the term's category, a global threshold of 0.7, and a best rule-based
confidence of 0.85, the claim as stated predicts the semantic matcher is
invoked (0.85 < 0.9), but the code does not invoke it (0.85 ≥ 0.7). -/
theorem claim_C4_counterexample :
    (alignTermI eC4 tC4 [cC4]).2.2 = false ∧
    rmatch tC4 [cC4] = [(cC4, MatchMethod.RULE_TITLE, 0.85)] ∧
    alookup eC4.review_thresholds_by_category tC4.category.value = some 0.9 ∧
    ((0.85 : ℚ) < 0.9) := by
  refine ⟨by with_unfolding_all rfl, by with_unfolding_all rfl,
    by with_unfolding_all rfl, by norm_num⟩

open AlignmentEngine RuleBasedMatcher in
/-- C4 (amended): the semantic matcher is invoked exactly when the rule
matcher returned no candidates or the best rule-based confidence is below
the configured GLOBAL confidence threshold; the per-category review
thresholds play no role in the gate, and when the gate stays closed no
match carries the SEMANTIC method tag. -/
theorem claim_C4_semantic_gate (e : AlignmentEngine) (t : ExtractedTerm)
    (cl : List AnalyzedClause) :
    ((alignTermI e t cl).2.2 = true ↔
      (rmatch t cl = [] ∨
        ∃ m0 ms, rmatch t cl = m0 :: ms ∧ m0.2.2 < e.confidence_threshold)) ∧
    (∀ rth, (alignTermI { e with review_thresholds_by_category := rth } t cl).2.2
      = (alignTermI e t cl).2.2) ∧
    ((alignTermI e t cl).2.2 = false →
      ∀ m ∈ (alignTermI e t cl).2.1, m.match_method ≠ MatchMethod.SEMANTIC) := by
  refine ⟨?_, ?_, ?_⟩
  · rw [alignTermI_flag]
    cases hrm : rmatch t cl with
    | nil => simp
    | cons m0 ms =>
      dsimp only
      rw [decide_eq_true_eq]
      constructor
      · intro h
        right
        exact ⟨m0, ms, rfl, h⟩
      · rintro (h | ⟨m0', ms', heq, hlt⟩)
        · cases h
        · cases heq
          exact hlt
  · intro rth
    rw [alignTermI_flag, alignTermI_flag]
  · intro hflag m hm
    unfold alignTermI at hm hflag
    dsimp only at hm hflag
    rw [hflag] at hm
    simp only [Bool.false_eq_true, if_false] at hm
    rw [mem_sortDescBy] at hm
    refine foldl_ruleStep_prop t (fun m => m.match_method ≠ MatchMethod.SEMANTIC) _ ?_
      (e, []) (by intro m' h; cases h) m hm
    intro e' x hx
    exact rmatch_not_semantic t cl x hx

open AlignmentEngine in
/-- C4 (witness): on the concrete inputs the gate ignores a per-category
threshold, and the produced best match is not semantic when the gate is
closed. -/
theorem claim_C4_witness :
    (alignTermI { engW with review_thresholds_by_category := [("investment_amount", 0.95)] }
      termWA tplW.clauses).2.2 = (alignTermI engW termWA tplW.clauses).2.2 ∧
    mC4w.match_method ≠ MatchMethod.SEMANTIC :=
  ⟨(claim_C4_semantic_gate engW termWA tplW.clauses).2.1 [("investment_amount", 0.95)],
   (claim_C4_semantic_gate engW termWA tplW.clauses).2.2 (by with_unfolding_all rfl)
     mC4w (of_decide_eq_true (by with_unfolding_all rfl))⟩

open AlignmentEngine in
/-- C5 (confirmed): a per-category "insert"/"override" policy decides the
action outright; otherwise the absence of a segment or of a (truthy)
current value yields INSERT, a placeholder current value (underscore runs,
bracketed tokens, XX runs, YYYY prefixes, tested on the stripped value)
yields INSERT, and any other existing value yields OVERRIDE. -/
theorem claim_C5_action_classification (e : AlignmentEngine) (t : ExtractedTerm)
    (c : AnalyzedClause) (seg : Option FillableSegment) :
    (alookup e.action_policies t.category.value = some "insert" →
      classifyAction e t c seg = .INSERT) ∧
    (alookup e.action_policies t.category.value = some "override" →
      classifyAction e t c seg = .OVERRIDE) ∧
    (alookup e.action_policies t.category.value ≠ some "insert" →
     alookup e.action_policies t.category.value ≠ some "override" →
      ((seg = none → classifyAction e t c seg = .INSERT) ∧
       (∀ s, seg = some s → s.current_value = none → classifyAction e t c seg = .INSERT) ∧
       (∀ s, seg = some s → s.current_value = some "" → classifyAction e t c seg = .INSERT) ∧
       (∀ s v, seg = some s → s.current_value = some v → v ≠ "" →
         placeholderSpec (pyStrip v) → classifyAction e t c seg = .INSERT) ∧
       (∀ s v, seg = some s → s.current_value = some v → v ≠ "" →
         ¬ placeholderSpec (pyStrip v) → classifyAction e t c seg = .OVERRIDE))) := by
  refine ⟨?_, ?_, ?_⟩
  · intro hp
    unfold classifyAction
    rw [if_pos hp]
  · intro hp
    unfold classifyAction
    have hne : alookup e.action_policies t.category.value ≠ some "insert" := by
      rw [hp]; decide
    rw [if_neg hne, if_pos hp]
  · intro hp1 hp2
    have hcafall : classifyAction e t c seg = (match seg with
        | some segment =>
          match segment.current_value with
          | some v =>
            if v = "" then ActionType.INSERT
            else if isPlaceholder (pyStrip v) then ActionType.INSERT else ActionType.OVERRIDE
          | none => ActionType.INSERT
        | none => ActionType.INSERT) := by
      unfold classifyAction
      rw [if_neg hp1, if_neg hp2]
    refine ⟨?_, ?_, ?_, ?_, ?_⟩
    · intro hn; rw [hcafall, hn]
    · intro s hs hv; rw [hcafall, hs]; dsimp only; rw [hv]
    · intro s hs hv; rw [hcafall, hs]; dsimp only; rw [hv]; rfl
    · intro s v hs hv hne hph
      rw [hcafall, hs]
      dsimp only
      rw [hv]
      dsimp only
      rw [if_neg hne, if_pos ((isPlaceholder_iff (pyStrip v)).mpr hph)]
    · intro s v hs hv hne hph
      rw [hcafall, hs]
      dsimp only
      rw [hv]
      dsimp only
      rw [if_neg hne, if_neg ?_]
      intro hcon
      exact hph ((isPlaceholder_iff (pyStrip v)).mp hcon)

open AlignmentEngine in
/-- C5 (witness): a `"____"` current value yields INSERT and a
`"USD 5,000,000"` current value yields OVERRIDE. -/
theorem claim_C5_witness :
    classifyAction engW termWA clauseWA (some segW) = .INSERT ∧
    classifyAction engW termWA clauseWA (some segOvr) = .OVERRIDE := by
  have h1 := (claim_C5_action_classification engW termWA clauseWA (some segW)).2.2
    (by decide) (by decide)
  have h2 := (claim_C5_action_classification engW termWA clauseWA (some segOvr)).2.2
    (by decide) (by decide)
  refine ⟨h1.2.2.2.1 segW "____" rfl rfl (by decide) ?_,
    h2.2.2.2.2 segOvr "USD 5,000,000" rfl rfl (by decide) ?_⟩
  · exact (isPlaceholder_iff (pyStrip "____")).mp (by with_unfolding_all rfl)
  · intro h
    have hb := (isPlaceholder_iff (pyStrip "USD 5,000,000")).mpr h
    have hf : isPlaceholder (pyStrip "USD 5,000,000") = false := by with_unfolding_all rfl
    rw [hf] at hb
    exact Bool.false_ne_true hb

open AlignmentEngine in
/-- C6 (counterexample): a per-category review threshold of 5 — outside
`[0, 1]` — inside the config argument of `align` is accepted silently:
the run succeeds and a later lookup observes the out-of-range value. -/
theorem claim_C6_counterexample :
    ((align engW tsE tplE (some cfgBad) "T").toOption.map
      (fun p => alookup p.1.review_thresholds_by_category "investment_amount"))
      = some (some 5) ∧
    ¬ ((0 : ℚ) ≤ 5 ∧ (5 : ℚ) ≤ 1) :=
  ⟨rfl, by norm_num⟩

open AlignmentEngine in
/-- C6 (amended): the global confidence threshold and the semantic
similarity threshold are validated eagerly — out-of-range values are
rejected with an error, in-range values are stored exactly (never
clamped), both via the setters and via `align`'s config — but the
per-category review-threshold overrides are copied in without any
validation. -/
theorem claim_C6_threshold_validation :
    (∀ (e : AlignmentEngine) q, (q < 0 ∨ 1 < q) →
      set_confidence_threshold e q = .error "Threshold must be between 0.0 and 1.0") ∧
    (∀ (e : AlignmentEngine) q, 0 ≤ q → q ≤ 1 →
      set_confidence_threshold e q = .ok { e with confidence_threshold := q }) ∧
    (∀ (m : SemanticMatcher) q, (q < 0 ∨ 1 < q) →
      SemanticMatcher.set_similarity_threshold m q
        = .error "Threshold must be between 0.0 and 1.0") ∧
    (∀ (m : SemanticMatcher) q, 0 ≤ q → q ≤ 1 →
      SemanticMatcher.set_similarity_threshold m q
        = .ok { m with similarity_threshold := q }) ∧
    (∀ (e : AlignmentEngine) cfg e1, applyConfig e cfg = .ok e1 →
      (∀ q, cfg.confidence_threshold = some q →
        0 ≤ q ∧ q ≤ 1 ∧ e1.confidence_threshold = q) ∧
      (∀ q, cfg.semantic_threshold = some q →
        0 ≤ q ∧ q ≤ 1 ∧ e1.semantic_matcher.similarity_threshold = q)) ∧
    (∀ (e : AlignmentEngine) rth,
      applyConfig e { review_thresholds_by_category := some rth }
      = .ok { e with review_thresholds_by_category := rth }) := by
  refine ⟨?_, ?_, ?_, ?_, ?_, ?_⟩
  · intro e q hq
    unfold set_confidence_threshold
    rw [if_neg]
    rintro ⟨h0, h1⟩
    rcases hq with h | h
    · exact absurd h0 (not_le.mpr h)
    · exact absurd h1 (not_le.mpr h)
  · intro e q h0 h1
    unfold set_confidence_threshold
    rw [if_pos ⟨h0, h1⟩]
  · intro m q hq
    unfold SemanticMatcher.set_similarity_threshold
    rw [if_neg]
    rintro ⟨h0, h1⟩
    rcases hq with h | h
    · exact absurd h0 (not_le.mpr h)
    · exact absurd h1 (not_le.mpr h)
  · intro m q h0 h1
    unfold SemanticMatcher.set_similarity_threshold
    rw [if_pos ⟨h0, h1⟩]
  · intro e cfg e1 h
    obtain ⟨-, hct, hst, -, -, -, -, -, hvc, hvs⟩ := applyConfig_fields e cfg e1 h
    constructor
    · intro q hq
      obtain ⟨h0, h1⟩ := hvc q hq
      rw [hq] at hct
      exact ⟨h0, h1, hct⟩
    · intro q hq
      obtain ⟨h0, h1⟩ := hvs q hq
      rw [hq] at hst
      exact ⟨h0, h1, hst⟩
  · intro e rth
    rfl

open AlignmentEngine in
/-- C6 (witness): an out-of-range global threshold is rejected, an
in-range one is stored exactly, and an out-of-range per-category override
is accepted unvalidated. -/
theorem claim_C6_witness :
    set_confidence_threshold engW 2 = .error "Threshold must be between 0.0 and 1.0" ∧
    set_confidence_threshold engW 0.5 = .ok { engW with confidence_threshold := 0.5 } ∧
    applyConfig engW { review_thresholds_by_category := some [("investment_amount", 5)] }
      = .ok { engW with review_thresholds_by_category := [("investment_amount", 5)] } :=
  ⟨claim_C6_threshold_validation.1 engW 2 (Or.inr (by norm_num)),
   claim_C6_threshold_validation.2.1 engW 0.5 (by norm_num) (by norm_num),
   claim_C6_threshold_validation.2.2.2.2.2 engW [("investment_amount", 5)]⟩

open AlignmentEngine in
/-- C7 (counterexample): an `align` call given a config with
`confidence_threshold = 0.9` permanently mutates the engine: the engine
observed afterwards carries 0.9, not the pre-run 0.7. -/
theorem claim_C7_counterexample :
    engW.confidence_threshold = 0.7 ∧
    ((align engW tsE tplE (some cfg7) "T").toOption.map
      (fun p => p.1.confidence_threshold)) = some 0.9 ∧
    (0.9 : ℚ) ≠ 0.7 :=
  ⟨rfl, by with_unfolding_all rfl, by norm_num⟩

open AlignmentEngine in
/-- C7 (amended): an `align` run without a config argument leaves the
thresholds and per-category policies unchanged (only the match counter is
mutated); a run with a config argument leaves the engine exactly in the
post-configuration state, i.e. the configured values persist for later
runs. -/
theorem claim_C7_frame (e : AlignmentEngine) (ts : TSExtractionResult)
    (tpl : TemplateAnalysisResult) (now : String) :
    (∀ e' r, align e ts tpl none now = .ok (e', r) →
      e'.semantic_matcher = e.semantic_matcher ∧
      e'.confidence_threshold = e.confidence_threshold ∧
      e'.action_policies = e.action_policies ∧
      e'.review_thresholds_by_category = e.review_thresholds_by_category) ∧
    (∀ cfg e1 e' r, applyConfig { e with match_counter := 0 } cfg = .ok e1 →
      align e ts tpl (some cfg) now = .ok (e', r) →
      e'.semantic_matcher = e1.semantic_matcher ∧
      e'.confidence_threshold = e1.confidence_threshold ∧
      e'.action_policies = e1.action_policies ∧
      e'.review_thresholds_by_category = e1.review_thresholds_by_category) := by
  constructor
  · intro e' r hok
    obtain ⟨ex, hcfg, he', -, -, -, -⟩ := align_ok_elim e ts tpl none now e' r hok
    dsimp only at hcfg
    cases hcfg
    obtain ⟨n, hn⟩ := processTerms_fst tpl.clauses ts.terms { e with match_counter := 0 }
    rw [he', hn]
    exact ⟨rfl, rfl, rfl, rfl⟩
  · intro cfg e1 e' r hac hok
    obtain ⟨e1', hcfg, he', -, -, -, -⟩ := align_ok_elim e ts tpl (some cfg) now e' r hok
    dsimp only at hcfg
    rw [hac] at hcfg
    cases hcfg
    obtain ⟨n, hn⟩ := processTerms_fst tpl.clauses ts.terms e1
    rw [he', hn]
    exact ⟨rfl, rfl, rfl, rfl⟩

open AlignmentEngine in
/-- C7 (witness): after the concrete config-free run the engine observed
by a later run carries exactly the old threshold and policies. -/
theorem claim_C7_witness :
    pW.1.confidence_threshold = engW.confidence_threshold ∧
    pW.1.action_policies = engW.action_policies ∧
    pW.1.review_thresholds_by_category = engW.review_thresholds_by_category := by
  have h := (claim_C7_frame engW tsW tplW "T").1 pW.1 pW.2 rfl
  exact ⟨h.2.1, h.2.2.1, h.2.2.2⟩

open RuleBasedMatcher in
/-- C8 (counterexample): for an investment-amount term against an
investment-terms clause containing none of the rule's keywords, the code's
keyword score is 0 while the claim's maximum-formula value is
`0.85 * 0.5 = 0.425` — the score does not equal the claimed maximum. -/
theorem claim_C8_counterexample :
    matchByTitle tX8 cX8 ≤ 0.5 ∧ matchByNumber tX8 cX8 ≤ 0.5 ∧
    matchByKeyword tX8 cX8 = 0 ∧ claimKeywordScore tX8 cX8 = 0.425 ∧
    (0 : ℚ) ≠ 0.425 := by
  refine ⟨of_decide_eq_true (by with_unfolding_all rfl),
    of_decide_eq_true (by with_unfolding_all rfl),
    by with_unfolding_all rfl, by with_unfolding_all rfl, by norm_num⟩

open RuleBasedMatcher in
/-- C8 (amended): the keyword strategy's score equals the maximum of
`base_confidence * (0.5 + 0.5 * matched/total)` over the applicable rules
with at least one matched keyword (zero-match rules contribute nothing),
and when that score exceeds 0.5 — the title and section-number strategies
not having fired — the clause is promoted with method rule-keyword and
exactly this confidence. -/
theorem claim_C8_keyword_score (t : ExtractedTerm) (c : AnalyzedClause) :
    matchByKeyword t c = claimKeywordScoreAmended t c ∧
    (matchByTitle t c ≤ 0.5 → matchByNumber t c ≤ 0.5 → 0.5 < matchByKeyword t c →
      matchTermToClause t c = some (MatchMethod.RULE_KEYWORD, matchByKeyword t c)) := by
  refine ⟨matchByKeyword_eq_amended t c, ?_⟩
  intro ht hn hk
  unfold matchTermToClause matchTermToClauseSteps
  dsimp only
  rw [if_neg (not_lt.mpr ht), if_neg (not_lt.mpr hn), if_pos hk]

set_option maxRecDepth 10000 in
open RuleBasedMatcher in
/-- C8 (witness): on a clause containing every keyword of the applicable
rule the cascade promotes it with method rule-keyword at exactly the
keyword score. -/
theorem claim_C8_witness :
    matchTermToClause tW8 cW8 = some (MatchMethod.RULE_KEYWORD, matchByKeyword tW8 cW8) :=
  (claim_C8_keyword_score tW8 cW8).2 (of_decide_eq_true (by with_unfolding_all rfl))
    (of_decide_eq_true (by with_unfolding_all rfl))
    (of_decide_eq_true (by with_unfolding_all rfl))

open RuleBasedMatcher in
/-- C9 (counterexample): a term and clause with empty titles are equal
case-insensitively, yet the matcher produces no rule-title candidate at
all (`if not term.title or not clause.title` short-circuits to 0). -/
theorem claim_C9_counterexample :
    pyLower tE9.title = pyLower cE9.title ∧
    matchByTitle tE9 cE9 = 0 ∧
    rmatch tE9 [cE9] = [] := by
  refine ⟨rfl, by with_unfolding_all rfl, by with_unfolding_all rfl⟩

open RuleBasedMatcher in
/-- C9 (amended): for nonempty titles equal case-insensitively, the title
strategy scores exactly 0.95, the cascade exits after the title strategy
alone, and the matcher emits the clause as a rule-title candidate with
confidence 0.95. -/
theorem claim_C9_title_exact (t : ExtractedTerm) (c : AnalyzedClause)
    (clauses : List AnalyzedClause) (ht : t.title ≠ "") (hc : c.title ≠ "")
    (heq : pyLower t.title = pyLower c.title) (hmem : c ∈ clauses) :
    matchByTitle t c = 0.95 ∧
    matchTermToClauseSteps t c = (some (MatchMethod.RULE_TITLE, 0.95), [Strategy.title]) ∧
    (c, MatchMethod.RULE_TITLE, (0.95 : ℚ)) ∈ rmatch t clauses := by
  have h95 : matchByTitle t c = 0.95 := by
    unfold matchByTitle
    rw [if_neg (not_or.mpr ⟨ht, hc⟩)]
    dsimp only
    rw [if_pos heq]
  have hsteps : matchTermToClauseSteps t c
      = (some (MatchMethod.RULE_TITLE, 0.95), [Strategy.title]) := by
    unfold matchTermToClauseSteps
    dsimp only
    rw [h95]
    rw [if_pos (by norm_num : (0.95 : ℚ) > 0.5)]
  refine ⟨h95, hsteps, ?_⟩
  unfold rmatch
  rw [mem_sortDescBy]
  apply List.mem_filterMap.mpr
  refine ⟨c, hmem, ?_⟩
  unfold matchTermToClause
  rw [hsteps]
  rfl

open RuleBasedMatcher in
/-- C9 (witness): the concrete term and clause with equal nonempty titles
yield the rule-title candidate at 0.95 with an early-exit cascade. -/
theorem claim_C9_witness :
    matchByTitle termWA clauseWA = 0.95 ∧
    matchTermToClauseSteps termWA clauseWA
      = (some (MatchMethod.RULE_TITLE, 0.95), [Strategy.title]) ∧
    (clauseWA, MatchMethod.RULE_TITLE, (0.95 : ℚ)) ∈ rmatch termWA tplW.clauses :=
  claim_C9_title_exact termWA clauseWA tplW.clauses (by decide) (by decide) rfl (by decide)

open AlignmentEngine in
/-- C10 (confirmed): two successive `align` calls on the same engine with
identical terms, clauses and configuration produce matches with identical
`(ts_term_id, clause_id, match_method, action)` tuples (the embedding
backend is a pure function in this model, hence deterministic). -/
theorem claim_C10_determinism (e : AlignmentEngine) (ts : TSExtractionResult)
    (tpl : TemplateAnalysisResult) (cfg : Option AlignConfig) (now now' : String)
    (e1 : AlignmentEngine) (r1 : AlignmentResult)
    (e2 : AlignmentEngine) (r2 : AlignmentResult)
    (h1 : align e ts tpl cfg now = .ok (e1, r1))
    (h2 : align e1 ts tpl cfg now' = .ok (e2, r2)) :
    r1.«matches».map matchTuple = r2.«matches».map matchTuple := by
  obtain ⟨ea, hcfga, hea, hma, -, -, -⟩ := align_ok_elim e ts tpl cfg now e1 r1 h1
  obtain ⟨eb, hcfgb, heb, hmb, -, -, -⟩ := align_ok_elim e1 ts tpl cfg now' e2 r2 h2
  obtain ⟨n, hn⟩ := processTerms_fst tpl.clauses ts.terms ea
  have hba : eb = ea := by
    cases cfg with
    | none =>
      dsimp only at hcfga hcfgb
      cases hcfga
      cases hcfgb
      rw [hea, hn]
    | some c =>
      dsimp only at hcfga hcfgb
      have hcnt : ea.match_counter = 0 :=
        (applyConfig_fields { e with match_counter := 0 } c ea hcfga).1
      have h10 : { e1 with match_counter := 0 } = ea := by
        rw [hea, hn]
        exact AlignmentEngine.ext rfl rfl hcnt.symm rfl rfl
      rw [h10] at hcfgb
      have hidem := applyConfig_idem { e with match_counter := 0 } c ea hcfga
      rw [hidem] at hcfgb
      cases hcfgb
      rfl
  rw [hma, hmb, hba]

open AlignmentEngine in
/-- C10 (witness): running the concrete alignment twice on the same
engine instance yields identical match tuples. -/
theorem claim_C10_witness :
    pW.2.«matches».map matchTuple = pW2.2.«matches».map matchTuple :=
  claim_C10_determinism engW tsW tplW none "T" "T2" pW.1 pW.2 pW2.1 pW2.2 rfl rfl

end TSAlign
